import Mathlib

/-!
# smb2obj: the SMB decoder of `src/smb2obj.cpp`, embedded in Lean

Conventions of the embedding.

* `uint8_t`, `uint16_t`, `uint32_t` values are `Nat`s; `uint32_t` arithmetic is
  written with an explicit `% 2^32` (`u32`).  In C++ an expression such as
  `submeshCount * 368` has type `unsigned int` and wraps before it is added to
  a `size_t`.
* `size_t` is taken to be 64 bits wide (LP64 / LLP64 targets).  Cursor values are
  sums of a buffer size and of a few 32-bit quantities, far below `2^64` for
  every buffer that fits in memory, and are kept as `Nat`.
* Multi-byte reads are `memcpy`s on a little-endian host.
* `std::string` is a list of byte values.
* `fileData[i]` is an unchecked `operator[]`.  The buffer is modelled by its size
  together with the bytes found at each index counted from `fileData.data()`;
  an index at or beyond `size` denotes what lies past the end of the storage.
  The code compares against `size` exactly where the source does and nowhere
  else.
* Console output (`std::cout`, `std::cerr`) is not modelled.
-/

namespace SMB

/-! ## Bytes and little-endian reads -/

/-- The vector `fileData`: `size` is `fileData.size()`, `byte i` is what an
unchecked access at index `i` finds. -/
structure ByteBuf where
  size : Nat
  byte : Nat → Nat

/-- Unchecked `fileData[i]`, a `uint8_t`. -/
def ByteBuf.get (d : ByteBuf) (i : Nat) : Nat := d.byte i % 256

/-- A buffer holding exactly the bytes of `l`; past the end every byte reads 0. -/
def ByteBuf.ofList (l : List Nat) : ByteBuf :=
  { size := l.length, byte := fun i => l.getD i 0 }

/-- Reduction of an unsigned 32-bit result. -/
def u32 (n : Nat) : Nat := n % 4294967296

/-- The two-byte `memcpy` into a `uint16_t`. -/
def readU16 (d : ByteBuf) (off : Nat) : Nat :=
  d.get off + 256 * d.get (off + 1)

/-- The four-byte `memcpy` into a `uint32_t`. -/
def readU32 (d : ByteBuf) (off : Nat) : Nat :=
  d.get off + 256 * d.get (off + 1) + 65536 * d.get (off + 2) + 16777216 * d.get (off + 3)

/-- A `std::string`: its bytes. -/
abbrev CppString := List Nat

/-- The bytes of a string literal. -/
def strLit (s : String) : CppString := s.toList.map Char.toNat

/-- The constructor `std::string(&fileData[offset], len)`. -/
def bytesAt (d : ByteBuf) (offset len : Nat) : CppString :=
  (List.range len).map (fun k => d.get (offset + k))

/-! ## IEEE-754 binary32 and `readHalfFloat` (lines 13-28)

A `float` is its 32-bit pattern.  Arithmetic is the IEEE-754 one with
round-to-nearest-even, each operation rounded to binary32: the exact result is
a ratio `p / q` of naturals and `roundMag` puts it on the grid of the format.
A NaN result is the canonical quiet NaN (payloads are not tracked).
`std::pow(2.0f, float(k))` with an integral `k` is taken to be the correctly
rounded power of two. -/

/-- A `float`, as its bit pattern (sign, 8 exponent bits, 23 fraction bits). -/
structure F32 where
  bits : Nat
deriving DecidableEq

namespace F32

/-- Bit 31. -/
def sign (x : F32) : Bool := x.bits / 2147483648 % 2 = 1
/-- Bits 23..30, the biased exponent. -/
def expField (x : F32) : Nat := x.bits / 8388608 % 256
/-- Bits 0..22. -/
def frac (x : F32) : Nat := x.bits % 8388608
/-- A NaN: all-ones exponent and a non-zero fraction. -/
def isNaN (x : F32) : Bool := x.expField = 255 ∧ x.frac ≠ 0
/-- An infinity: all-ones exponent and a zero fraction. -/
def isInf (x : F32) : Bool := x.expField = 255 ∧ x.frac = 0

/-- Significand of a finite value, as an integer. -/
def mant (x : F32) : Nat := if x.expField = 0 then x.frac else x.frac + 8388608

/-- Scale of a finite value: its magnitude is `mant * 2 ^ expo / 2 ^ 149`. -/
def expo (x : F32) : Nat := if x.expField = 0 then 0 else x.expField - 1

/-- The rational value of a finite pattern. -/
def toRat (x : F32) : ℚ :=
  (if x.sign then -1 else 1) * ((x.mant : ℚ) * 2 ^ x.expo / 2 ^ 149)

/-- The weight of the sign bit. -/
def signBit (neg : Bool) : Nat := if neg then 2147483648 else 0
/-- The quiet NaN, the value of the macro `NAN`. -/
def qNaN : F32 := ⟨0x7FC00000⟩
/-- The infinities; `inf false` is the macro `INFINITY`. -/
def inf (neg : Bool) : F32 := ⟨signBit neg + 0x7F800000⟩
/-- The two zeros. -/
def zero (neg : Bool) : F32 := ⟨signBit neg⟩

/-- The least shift `sh` (at most `fuel` above the start) bringing `n0 / 2 ^ sh`
below `bound`: the position of the result in the exponent range. -/
def normShift (bound n0 : Nat) : Nat → Nat → Nat
  | 0, sh => sh
  | fuel + 1, sh => if n0 / 2 ^ sh < bound then sh else normShift bound n0 fuel (sh + 1)

/-- Round-to-nearest-even of `p / q` in a binary format with `prec` significand
bits, subnormal unit `2 ^ (-emin)` and all-ones exponent field `maxExp`: the
exponent and fraction fields of the result, saturating at infinity. -/
def roundMag (prec emin maxExp p q : Nat) : Nat :=
  let sh := normShift (2 ^ prec) (p * 2 ^ emin / q) maxExp 0
  let den := q * 2 ^ sh
  let n := p * 2 ^ emin / den
  let r := p * 2 ^ emin % den
  let n := if den < 2 * r ∨ (den = 2 * r ∧ n % 2 = 1) then n + 1 else n
  min (sh * 2 ^ (prec - 1) + n) (maxExp * 2 ^ (prec - 1))

/-- The binary32 value nearest to `± p / q`. -/
def roundRatio (neg : Bool) (p q : Nat) : F32 :=
  ⟨signBit neg + roundMag 24 149 255 p q⟩

/-- The product `a * b` on `float`. -/
def mul (a b : F32) : F32 :=
  if a.isNaN ∨ b.isNaN then qNaN
  else if a.isInf ∨ b.isInf then
    (if (a.isInf = false ∧ a.mant = 0) ∨ (b.isInf = false ∧ b.mant = 0) then qNaN
     else inf (xor a.sign b.sign))
  else
    roundRatio (xor a.sign b.sign) (a.mant * b.mant * 2 ^ (a.expo + b.expo))
      (2 ^ 149 * 2 ^ 149)

/-- The quotient `a / b` on `float`. -/
def div (a b : F32) : F32 :=
  if a.isNaN ∨ b.isNaN then qNaN
  else if a.isInf then (if b.isInf then qNaN else inf (xor a.sign b.sign))
  else if b.isInf then zero (xor a.sign b.sign)
  else if b.mant = 0 then (if a.mant = 0 then qNaN else inf (xor a.sign b.sign))
  else roundRatio (xor a.sign b.sign) (a.mant * 2 ^ a.expo) (b.mant * 2 ^ b.expo)

/-- A finite value as a signed multiple of `2 ^ (-149)`. -/
def toInt (x : F32) : Int :=
  if x.sign then -((x.mant * 2 ^ x.expo : Nat) : Int) else ((x.mant * 2 ^ x.expo : Nat) : Int)

/-- The sum `a + b` on `float`. -/
def add (a b : F32) : F32 :=
  if a.isNaN ∨ b.isNaN then qNaN
  else if a.isInf then (if b.isInf ∧ a.sign ≠ b.sign then qNaN else a)
  else if b.isInf then b
  else if a.toInt + b.toInt = 0 then zero (a.sign && b.sign)
  else roundRatio (decide (a.toInt + b.toInt < 0)) (a.toInt + b.toInt).natAbs (2 ^ 149)

/-- Conversion of an `int` to `float`. -/
def ofInt (i : Int) : F32 := roundRatio (decide (i < 0)) i.natAbs 1

/-- The call `std::pow(2.0f, float(k))` for an integral `k`. -/
def pow2 (k : Int) : F32 := roundRatio false (2 ^ k.toNat) (2 ^ (-k).toNat)

/-- Unary minus: the sign bit is flipped. -/
def neg (x : F32) : F32 := ⟨x.bits ^^^ 0x80000000⟩

/-- The literal `1.0f`. -/
def one : F32 := ⟨0x3F800000⟩
/-- The literal `-1.0f`. -/
def negOne : F32 := ⟨0xBF800000⟩
/-- The literal `1024.0f`. -/
def f1024 : F32 := ⟨0x44800000⟩

end F32

/-- The finite pattern with sign `neg`, scale `s` and significand `m`:
its magnitude is `m * 2 ^ s / 2 ^ 149`. -/
def F32.pack (neg : Bool) (s m : Nat) : F32 := ⟨F32.signBit neg + (s * 8388608 + m)⟩

/-- The pair `(s, m)` is the scale and significand of a finite binary32 value: `m` has at
most 24 bits and is normalized unless `s = 0`. -/
def F32.Canon (s m : Nat) : Prop := m < 16777216 ∧ (s = 0 ∨ 8388608 ≤ m) ∧ s ≤ 253

/-- Lines 17-27 of `readHalfFloat`: the conversion of the 16-bit pattern. -/
def decodeHalf (uint16 : Nat) : F32 :=
  let sign := (uint16 &&& 0x8000) >>> 15
  let exponent := (uint16 &&& 0x7C00) >>> 10
  let fraction := uint16 &&& 0x03FF
  if exponent = 0 then
    ((if sign ≠ 0 then F32.negOne else F32.one).mul (F32.pow2 (-14))).mul
      ((F32.ofInt fraction).div F32.f1024)
  else if exponent = 0x1F then
    (if fraction ≠ 0 then F32.qNaN
     else if sign ≠ 0 then F32.neg (F32.inf false) else F32.inf false)
  else
    ((if sign ≠ 0 then F32.negOne else F32.one).mul (F32.pow2 ((exponent : Int) - 15))).mul
      (F32.one.add ((F32.ofInt fraction).div F32.f1024))

/-- The function `readHalfFloat(data, offset)` (lines 13-28). -/
def readHalfFloat (data : ByteBuf) (offset : Nat) : F32 :=
  decodeHalf (readU16 data offset)

/-- The canonical 1-5-10 binary16 encoder that the round-trip property of the
specification compares against (a test helper; the source has no encoder):
round-to-nearest-even, overflow to infinity, NaN to the quiet NaN. -/
def encodeHalf (x : F32) : Nat :=
  (if x.sign then 0x8000 else 0) +
    (if x.isNaN then 0x7E00
     else if x.isInf then 0x7C00
     else F32.roundMag 11 24 31 (x.mant * 2 ^ x.expo) (2 ^ 149))

/-! ## Data model (lines 30-63) -/

/-- The `struct SubmeshInfo` (lines 30-36). -/
structure SubmeshInfo where
  name : CppString
  materialName : CppString
  vertexCount : Nat
  faceCount : Nat
  stride : Nat
deriving DecidableEq

/-- The three private members of `class SMBConverter` (lines 61-63). -/
structure SMBConverter where
  fileData : ByteBuf
  materials : List CppString
  submeshes : List SubmeshInfo

/-- A converter right after `loadFile`: both tables are empty. -/
def SMBConverter.fresh (d : ByteBuf) : SMBConverter :=
  { fileData := d, materials := [], submeshes := [] }

/-! ## parseHeader (lines 85-183) -/

/-- The loop `while (nameEnd < fileData.size() && fileData[nameEnd] != 0) nameEnd++`
(lines 109-111 and 202-204).  `fuel` bounds the number of iterations; the callers
pass `size - offset`, which the loop cannot exceed (`scanName_exit`). -/
def scanName (d : ByteBuf) : Nat → Nat → Nat
  | 0, nameEnd => nameEnd
  | fuel + 1, nameEnd =>
    if nameEnd < d.size ∧ d.get nameEnd ≠ 0 then scanName d fuel (nameEnd + 1) else nameEnd

/-- Body of the material loop of `parseHeader` (lines 108-118): the new cursor
and the material table after `push_back`. -/
def parseMaterial (d : ByteBuf) (offset : Nat) (materials : List CppString) :
    Nat × List CppString :=
  let nameEnd := scanName d (d.size - offset) offset
  let materialName := bytesAt d offset (nameEnd - offset)
  let nameLength := nameEnd - offset + 1
  let paddedLength := ((nameLength + 3) / 4) * 4
  (offset + paddedLength, materials ++ [materialName])

/-- The material loop of `parseHeader` (line 107), `n` iterations. -/
def parseMaterials (d : ByteBuf) : Nat → Nat → List CppString → Nat × List CppString
  | 0, offset, materials => (offset, materials)
  | n + 1, offset, materials =>
    parseMaterials d n (parseMaterial d offset materials).1 (parseMaterial d offset materials).2

/-- The loop of line 136: stops at `offset + 48`, at the end of the buffer or
at a null byte.  At most 48 iterations. -/
def scanSubmeshName (d : ByteBuf) (offset : Nat) : Nat → Nat → Nat
  | 0, nameEnd => nameEnd
  | fuel + 1, nameEnd =>
    if nameEnd < offset + 48 ∧ nameEnd < d.size ∧ d.get nameEnd ≠ 0
    then scanSubmeshName d offset fuel (nameEnd + 1) else nameEnd

/-- The `switch (strideMarker)` of lines 156-165. -/
def vertexStrideOf (strideMarker : Nat) : Nat :=
  if strideMarker = 0x40 then 68
  else if strideMarker = 0x3C then 64
  else if strideMarker = 0x38 then 60
  else 64

/-- Body of the submesh-header loop (lines 132-173): the descriptor built from
the 368-byte record at `offset`. -/
def parseSubmeshHeader (d : ByteBuf) (materials : List CppString) (offset : Nat) :
    SubmeshInfo :=
  let headerStart := offset
  let nameEnd := scanSubmeshName d offset 48 offset
  let submeshName := bytesAt d offset (nameEnd - offset)
  let materialIdx := readU32 d (headerStart + 48)
  let materialName :=
    if h : materialIdx < materials.length then materials[materialIdx] else strLit "Unknown"
  let vertexCount := readU32 d (headerStart + 352)
  let faceCount := readU32 d (headerStart + 356)
  let strideMarker := readU32 d (headerStart + 220)
  let vertexStride := vertexStrideOf strideMarker
  { name := submeshName, materialName := materialName, vertexCount := vertexCount,
    faceCount := faceCount, stride := vertexStride }

/-- The submesh-header loop (lines 131-180), `n` iterations: each one appends a
descriptor and adds 368 to the `size_t` cursor. -/
def parseSubmeshHeaders (d : ByteBuf) (materials : List CppString) :
    Nat → Nat → List SubmeshInfo → Nat × List SubmeshInfo
  | 0, offset, submeshes => (offset, submeshes)
  | n + 1, offset, submeshes =>
    parseSubmeshHeaders d materials n (offset + 368)
      (submeshes ++ [parseSubmeshHeader d materials offset])

/-- Lines 91-128 of `parseHeader`: the cursor after the tag/collision block, the
material table after the material loop, and `submeshCount`. -/
def parseHeaderTables (c : SMBConverter) : Nat × List CppString × Nat :=
  let d := c.fileData
  let offset := 0
  let offset := offset + 40
  let submeshCount := readU32 d offset
  let offset := offset + 4
  let collisionMeshCount := readU32 d offset
  let offset := offset + 4
  let tagCount := readU32 d offset
  let offset := offset + 4
  let materialsCount := readU32 d offset
  let offset := offset + 4
  let offset := offset + 8
  let mats := parseMaterials d materialsCount offset c.materials
  let offset := mats.1
  let offset :=
    if tagCount > 0 then offset + u32 (u32 (tagCount * 48) + 24)
    else if collisionMeshCount > 0 then offset + u32 (u32 (collisionMeshCount * 428) + 24)
    else offset + 24
  (offset, mats.2, submeshCount)

/-- Lines 91-180 of `parseHeader`: the final value of the local `offset` and the
converter with both tables extended. -/
def parseHeaderWalk (c : SMBConverter) : Nat × SMBConverter :=
  let t := parseHeaderTables c
  let subs := parseSubmeshHeaders c.fileData t.2.1 t.2.2 t.1 c.submeshes
  (subs.1, { fileData := c.fileData, materials := t.2.1, submeshes := subs.2 })

/-- The method `parseHeader`: the returned `bool` and the converter afterwards. -/
def parseHeader (c : SMBConverter) : Bool × SMBConverter :=
  if c.fileData.size < 64 then (false, c) else (true, (parseHeaderWalk c).2)

/-! ## extractMeshData: the layout re-walk (lines 188-225) -/

/-- The material-skipping loop of `extractMeshData` (lines 200-208). -/
def skipMaterials (d : ByteBuf) : Nat → Nat → Nat
  | 0, offset => offset
  | n + 1, offset =>
    let nameEnd := scanName d (d.size - offset) offset
    let nameLength := nameEnd - offset + 1
    let paddedLength := ((nameLength + 3) / 4) * 4
    skipMaterials d n (offset + paddedLength)

/-- Lines 189-220: the cursor of `extractMeshData` just before the 16-byte
alignment.  `submeshCount * 368` is an `unsigned int` product. -/
def vertexDataOffset (d : ByteBuf) : Nat :=
  let offset := 0
  let offset := offset + 40
  let submeshCount := readU32 d 40
  let collisionMeshCount := readU32 d 44
  let tagCount := readU32 d 48
  let materialsCount := readU32 d 52
  let offset := offset + 24
  let offset := skipMaterials d materialsCount offset
  let offset :=
    if tagCount > 0 then offset + u32 (u32 (tagCount * 48) + 24)
    else if collisionMeshCount > 0 then offset + u32 (u32 (collisionMeshCount * 428) + 24)
    else offset + 24
  offset + u32 (submeshCount * 368)

/-- Lines 223-225: the 16-byte alignment. -/
def align16 (offset : Nat) : Nat :=
  if offset % 16 ≠ 0 then offset + (16 - offset % 16) else offset

/-! ## extractMeshData: geometry (lines 229-285) -/

/-- The `struct Vec3` (lines 38-40). -/
structure Vec3 where
  x : F32
  y : F32
  z : F32
deriving DecidableEq

/-- The `struct Vec2` (lines 42-44). -/
structure Vec2 where
  u : F32
  v : F32
deriving DecidableEq

/-- The `struct Face` (lines 46-48): three `uint16_t` indices. -/
structure Face where
  i1 : Nat
  i2 : Nat
  i3 : Nat
deriving DecidableEq

/-- The `struct SubmeshData` (lines 50-57). -/
structure SubmeshData where
  name : CppString
  materialName : CppString
  vertices : List Vec3
  normals : List Vec3
  uvs : List Vec2
  faces : List Face
deriving DecidableEq

/-- The four-byte `memcpy` into a `float`. -/
def readF32 (d : ByteBuf) (off : Nat) : F32 := ⟨readU32 d off⟩

/-- Line 237: `offset + i * submeshInfo.stride`, the product being a 32-bit one. -/
def vertOffsetOf (offset : Nat) (info : SubmeshInfo) (i : Nat) : Nat :=
  offset + u32 (i * info.stride)

/-- Lines 240-247: the position pushed for the record at `vertOffset`. -/
def readPosition (d : ByteBuf) (vertOffset : Nat) : Vec3 :=
  let vertex : Vec3 :=
    { x := readF32 d vertOffset, y := readF32 d (vertOffset + 4), z := readF32 d (vertOffset + 8) }
  { vertex with x := F32.neg vertex.x }

/-- Lines 250-257: the normal pushed for the record at `vertOffset`. -/
def readNormal (d : ByteBuf) (vertOffset : Nat) : Vec3 :=
  let normal : Vec3 :=
    { x := readF32 d (vertOffset + 12), y := readF32 d (vertOffset + 16),
      z := readF32 d (vertOffset + 20) }
  { normal with x := F32.neg normal.x }

/-- Lines 260-263: the UV pair pushed for the record at `vertOffset`. -/
def readUV (d : ByteBuf) (vertOffset : Nat) : Vec2 :=
  { u := readHalfFloat d (vertOffset + 24), v := readHalfFloat d (vertOffset + 26) }

/-- The face loop (lines 269-280), `n` iterations from `offset`: the faces pushed
and the cursor afterwards. -/
def readFaces (d : ByteBuf) : Nat → Nat → List Face × Nat
  | 0, offset => ([], offset)
  | n + 1, offset =>
    let face : Face :=
      { i1 := readU16 d offset, i2 := readU16 d (offset + 2), i3 := readU16 d (offset + 4) }
    let face : Face := { i1 := face.i1, i2 := face.i3, i3 := face.i2 }
    let rest := readFaces d n (offset + 6)
    (face :: rest.1, rest.2)

/-- Cursor at the face block of a submesh whose vertex block starts at `offset`
(line 266): `vertexCount * stride` is a 32-bit product. -/
def faceBlockStart (offset : Nat) (info : SubmeshInfo) : Nat :=
  offset + u32 (info.vertexCount * info.stride)

/-- Body of the loop over `submeshes` (lines 231-282): the `SubmeshData` pushed
and the cursor afterwards. -/
def extractSubmesh (d : ByteBuf) (offset : Nat) (info : SubmeshInfo) : SubmeshData × Nat :=
  let fs := readFaces d info.faceCount (faceBlockStart offset info)
  ({ name := info.name,
     materialName := info.materialName,
     vertices := (List.range info.vertexCount).map
       (fun i => readPosition d (vertOffsetOf offset info i)),
     normals := (List.range info.vertexCount).map
       (fun i => readNormal d (vertOffsetOf offset info i)),
     uvs := (List.range info.vertexCount).map
       (fun i => readUV d (vertOffsetOf offset info i)),
     faces := fs.1 },
   fs.2)

/-- The loop over `submeshes` (line 230), from cursor `offset`. -/
def extractSubmeshes (d : ByteBuf) : Nat → List SubmeshInfo → List SubmeshData
  | _, [] => []
  | offset, info :: rest =>
    (extractSubmesh d offset info).1 :: extractSubmeshes d (extractSubmesh d offset info).2 rest

/-- The method `extractMeshData` (lines 185-286). -/
def extractMeshData (c : SMBConverter) : List SubmeshData :=
  extractSubmeshes c.fileData (align16 (vertexDataOffset c.fileData)) c.submeshes

/-- Every vertex record (its 28 bytes read) and every face record (6 bytes) of
the submesh at `offset` lies inside the buffer. -/
def submeshInBounds (d : ByteBuf) (offset : Nat) (info : SubmeshInfo) : Prop :=
  (∀ i, i < info.vertexCount → vertOffsetOf offset info i + 28 ≤ d.size) ∧
  (∀ j, j < info.faceCount → faceBlockStart offset info + 6 * j + 6 ≤ d.size)

instance (d : ByteBuf) (offset : Nat) (info : SubmeshInfo) :
    Decidable (submeshInBounds d offset info) := by
  unfold submeshInBounds; infer_instance

/-- All vertex and face reads of the loop over `submeshes` stay inside the buffer. -/
def readsInBounds (d : ByteBuf) : Nat → List SubmeshInfo → Bool
  | _, [] => true
  | offset, info :: rest =>
    decide (submeshInBounds d offset info) && readsInBounds d (extractSubmesh d offset info).2 rest

/-- All geometry reads of `extractMeshData` stay inside `fileData`. -/
def geometryInBounds (c : SMBConverter) : Prop :=
  readsInBounds c.fileData (align16 (vertexDataOffset c.fileData)) c.submeshes = true

instance (c : SMBConverter) : Decidable (geometryInBounds c) := by
  unfold geometryInBounds; infer_instance

/-- The cursor at the vertex block of the `k`-th descriptor when the loop over
`submeshes` starts at `offset`. -/
def submeshStart (d : ByteBuf) : Nat → List SubmeshInfo → Nat → Nat
  | offset, _, 0 => offset
  | offset, [], _ + 1 => offset
  | offset, info :: rest, k + 1 => submeshStart d (extractSubmesh d offset info).2 rest k

/-- The cursor of `extractMeshData` at the vertex block of the `k`-th descriptor. -/
def vertexBlockStart (c : SMBConverter) (k : Nat) : Nat :=
  submeshStart c.fileData (align16 (vertexDataOffset c.fileData)) c.submeshes k

/-- A name of raw length `L` (terminator included) sits at `offset`: `L - 1`
non-null bytes followed by a null byte, all inside the buffer. -/
def nameAt (d : ByteBuf) (offset L : Nat) : Prop :=
  1 ≤ L ∧ offset + L ≤ d.size ∧
  (∀ k, k < L - 1 → d.get (offset + k) ≠ 0) ∧ d.get (offset + (L - 1)) = 0

instance (d : ByteBuf) (offset L : Nat) : Decidable (nameAt d offset L) := by
  unfold nameAt; infer_instance

/-- What a `SubmeshData` carries besides the decoded values: its two names and
the lengths of its four sequences. -/
def SubmeshData.shape (s : SubmeshData) : CppString × CppString × Nat × Nat × Nat × Nat :=
  (s.name, s.materialName, s.vertices.length, s.normals.length, s.uvs.length, s.faces.length)

/-- The shape a descriptor asks for. -/
def SubmeshInfo.shape (info : SubmeshInfo) : CppString × CppString × Nat × Nat × Nat × Nat :=
  (info.name, info.materialName, info.vertexCount, info.vertexCount, info.vertexCount,
    info.faceCount)

/-! ## Concrete buffers -/

/-- Little-endian bytes of a 16-bit value. -/
def le16 (n : Nat) : List Nat := [n % 256, n / 256 % 256]

/-- Little-endian bytes of a 32-bit value. -/
def le32 (n : Nat) : List Nat := [n % 256, n / 256 % 256, n / 65536 % 256, n / 16777216 % 256]

/-- A run of `k` zero bytes. -/
def zeros (k : Nat) : List Nat := List.replicate k 0

/-- One 64-byte vertex record: position, normal, two half-float UVs, padding. -/
def vertexRecord (px py pz nx ny nz u v : Nat) : List Nat :=
  le32 px ++ le32 py ++ le32 pz ++ le32 nx ++ le32 ny ++ le32 nz ++ le16 u ++ le16 v ++ zeros 36

/-- The scenario file of the specification: one material "Red", no tags, no
collision meshes, one submesh "Cube" bound to material 0 with 3 vertices and
1 face, and the given stride marker.  Header 0..63, material name 64..67,
tag block 68..91, submesh header 92..459, alignment 460..463, vertex records
at 464, 528, 592, face record at 656; 662 bytes. -/
def scenarioBytes (strideMarker : Nat) : List Nat :=
  zeros 40 ++ le32 1 ++ le32 0 ++ le32 0 ++ le32 1 ++ zeros 8 ++
  strLit "Red" ++ [0] ++
  zeros 24 ++
  (strLit "Cube" ++ zeros 44 ++ le32 0 ++ zeros 168 ++ le32 strideMarker ++ zeros 128 ++
    le32 3 ++ le32 1 ++ zeros 8) ++
  zeros 4 ++
  vertexRecord 0x3F800000 0x40000000 0x40400000 0 0 0x3F800000 0x3800 0x3C00 ++
  vertexRecord 0xBF800000 0 0x40800000 0x80000000 0x3F800000 0 0 0x3C00 ++
  vertexRecord 0 0x3F800000 0 0x3F800000 0 0 0x3C00 0 ++
  (le16 0 ++ le16 1 ++ le16 2)

/-- The scenario file with stride marker `0x3C`. -/
def scenarioBuf : ByteBuf := ByteBuf.ofList (scenarioBytes 0x3C)

/-- The scenario file cut after 500 bytes: the second and third vertex records
and the face record are missing. -/
def truncatedBuf : ByteBuf := ByteBuf.ofList ((scenarioBytes 0x3C).take 500)

/-- A 63-byte file. -/
def shortBuf : ByteBuf := ByteBuf.ofList (zeros 63)

/-- A file of 4294967464 bytes, all zero except the submesh count at offset 40,
which is 11671107 (`0x00B21643`): 64 header bytes, a 24-byte tag block and
11671107 submesh headers of 368 bytes. -/
def wrapBuf : ByteBuf :=
  { size := 4294967464,
    byte := fun i => if i = 40 then 0x43 else if i = 41 then 0x16 else if i = 42 then 0xB2 else 0 }

/-- A two-byte buffer holding the 16-bit pattern `h`. -/
def halfBuf (h : Nat) : ByteBuf := ByteBuf.ofList (le16 h)

/-- A file whose single material name starts at offset 64 and has raw length `L`
(terminator included): `L - 1` letters and a null byte. -/
def nameBuf (L : Nat) : ByteBuf :=
  ByteBuf.ofList (zeros 40 ++ le32 0 ++ le32 0 ++ le32 0 ++ le32 1 ++ zeros 8 ++
    List.replicate (L - 1) 0x41 ++ [0])

/-- The length `L` rounded up to the next multiple of 4 (see `ceil_quarter`). -/
def paddedLength (L : Nat) : Nat := (L + 3) / 4 * 4

/-- Names of raw lengths `Ls` (terminators included) sit one after the other from
`start`, each at the previous start plus the previous padded length, and each
is null-terminated inside the buffer. -/
def namesAt (d : ByteBuf) : Nat → List Nat → Bool
  | _, [] => true
  | start, L :: rest => decide (nameAt d start L) && namesAt d (start + paddedLength L) rest

/-- The names laid out as in `namesAt`: for each, the bytes from its start up to
(not including) its terminator. -/
def namesOf (d : ByteBuf) : Nat → List Nat → List CppString
  | _, [] => []
  | start, L :: rest => bytesAt d start (L - 1) :: namesOf d (start + paddedLength L) rest

/-- The scenario file with the material index of its submesh header (byte 140)
set to 7, beyond the one-entry material table. -/
def unknownMaterialBuf : ByteBuf := ByteBuf.ofList ((scenarioBytes 0x3C).set 140 7)

/-- A header followed by two material names, "Wood" (raw length 5, padded to 8)
and "Red" (raw length 4), and the 24-byte tag block. -/
def twoNamesBuf : ByteBuf :=
  ByteBuf.ofList (zeros 40 ++ le32 0 ++ le32 0 ++ le32 0 ++ le32 2 ++ zeros 8 ++
    strLit "Wood" ++ [0] ++ zeros 3 ++ strLit "Red" ++ [0] ++ zeros 24)

/-- The size of the tag/collision block as the specification words it:
`tagCount * 48 + 24` bytes if there are tags, otherwise
`collisionMeshCount * 428 + 24` bytes if there are collision meshes, otherwise
24 bytes. -/
def tagBlockSize (tagCount collisionMeshCount : Nat) : Nat :=
  if tagCount > 0 then tagCount * 48 + 24
  else if collisionMeshCount > 0 then collisionMeshCount * 428 + 24
  else 24

/-- A file of 4294967736 bytes with one submesh and 89478485 (`0x05555555`) tags:
64 header bytes, a tag block of 89478485 * 48 + 24 = 4294967304 bytes, and at
offset 4294967368 the 368-byte header of the submesh "Cube" (stride marker
`0x3C`, 3 vertices).  All other bytes are zero. -/
def tagWrapBuf : ByteBuf :=
  { size := 4294967736,
    byte := fun i =>
      if i = 40 then 1
      else if i = 48 then 0x55 else if i = 49 then 0x55 else if i = 50 then 0x55
      else if i = 51 then 0x05
      else if i = 4294967368 then 67 else if i = 4294967369 then 117
      else if i = 4294967370 then 98 else if i = 4294967371 then 101
      else if i = 4294967588 then 0x3C
      else if i = 4294967720 then 3
      else 0 }

/-! ## exportToOBJ (lines 288-348)

The text written to `objFile` is kept as the list of its lines (every line is
written followed by `"\n"`).  The way the stream formats a `float`
(`std::fixed`, `std::setprecision(6)`) is a parameter `fmt`.  Whether the output
file could be opened is the parameter `opened`. -/

/-- The subtraction `a - b` on `float`. -/
def F32.sub (a b : F32) : F32 := a.add b.neg

/-- Decimal digits of `n`, most significant first, as characters; `fuel` bounds
the number of digits. -/
def decimalDigits : Nat → Nat → CppString
  | 0, _ => []
  | fuel + 1, n => if n < 10 then [48 + n] else decimalDigits fuel (n / 10) ++ [48 + n % 10]

/-- The text of an unsigned integer: `std::to_string(i)` (line 310) and
`objFile << v1` for a `size_t` (lines 335-337). -/
def to_string (n : Nat) : CppString := decimalDigits (n + 1) n

/-- The number a string of decimal digits stands for. -/
def ofDecimal (s : CppString) : Nat := s.foldl (fun acc ch => acc * 10 + (ch - 48)) 0

/-- Lines 308-310: the submesh name with every space replaced by an underscore,
followed by `"_"` and the position `i`. -/
def uniqueName (i : Nat) (submesh : SubmeshData) : CppString :=
  let cleanName := submesh.name.map (fun ch => if ch = 32 then 95 else ch)
  cleanName ++ strLit "_" ++ to_string i

/-- Lines 331-337: the line written for one face. -/
def faceLine (vertexOffset : Nat) (f : Face) : CppString :=
  let v1 := f.i1 + 1 + vertexOffset
  let v2 := f.i2 + 1 + vertexOffset
  let v3 := f.i3 + 1 + vertexOffset
  strLit "f " ++ to_string v1 ++ strLit "/" ++ to_string v1 ++ strLit "/" ++ to_string v1 ++
    strLit " " ++ to_string v2 ++ strLit "/" ++ to_string v2 ++ strLit "/" ++ to_string v2 ++
    strLit " " ++ to_string v3 ++ strLit "/" ++ to_string v3 ++ strLit "/" ++ to_string v3

/-- Lines 305-338: the lines written for the submesh at position `i` when the
running vertex offset is `vertexOffset`. -/
def submeshLines (fmt : F32 → CppString) (i vertexOffset : Nat) (submesh : SubmeshData) :
    List CppString :=
  [strLit "o " ++ uniqueName i submesh] ++
  submesh.vertices.map
    (fun v => strLit "v " ++ fmt v.x ++ strLit " " ++ fmt v.y ++ strLit " " ++ fmt v.z) ++
  submesh.uvs.map
    (fun uv => strLit "vt " ++ fmt uv.u ++ strLit " " ++ fmt (F32.sub F32.one uv.v)) ++
  submesh.normals.map
    (fun n => strLit "vn " ++ fmt n.x ++ strLit " " ++ fmt n.y ++ strLit " " ++ fmt n.z) ++
  submesh.faces.map (faceLine vertexOffset)

/-- The loop of lines 304-343 from position `i` with running offset
`vertexOffset`; each iteration adds `submesh.vertices.size()` to the offset. -/
def exportLoop (fmt : F32 → CppString) : Nat → Nat → List SubmeshData → List CppString
  | _, _, [] => []
  | i, vertexOffset, submesh :: rest =>
    submeshLines fmt i vertexOffset submesh ++
      exportLoop fmt (i + 1) (vertexOffset + submesh.vertices.length) rest

/-- The method `exportToOBJ`: the returned `bool` and the lines written. -/
def exportToOBJ (fmt : F32 → CppString) (opened : Bool) (c : SMBConverter) :
    Bool × List CppString :=
  if opened = false then (false, [])
  else (true, strLit "# Exported by SMB2OBJ Converter (C++)" ::
    exportLoop fmt 0 0 (extractMeshData c))

/-- The sum of the vertex counts of the submeshes at positions `0 .. k - 1`. -/
def vertexBase (meshData : List SubmeshData) (k : Nat) : Nat :=
  ((meshData.take k).map (fun s => s.vertices.length)).sum

/-- A decoded submesh named "Box 1": a triangle on 3 vertices. -/
def boxA : SubmeshData :=
  { name := strLit "Box 1", materialName := strLit "Red",
    vertices := [⟨⟨0⟩, ⟨0⟩, ⟨0⟩⟩, ⟨⟨0⟩, ⟨0⟩, ⟨0⟩⟩, ⟨⟨0⟩, ⟨0⟩, ⟨0⟩⟩], normals := [], uvs := [],
    faces := [{ i1 := 0, i2 := 2, i3 := 1 }] }

/-- A second decoded submesh with the same name "Box 1": a triangle on 4 vertices. -/
def boxB : SubmeshData :=
  { name := strLit "Box 1", materialName := strLit "Red",
    vertices := [⟨⟨0⟩, ⟨0⟩, ⟨0⟩⟩, ⟨⟨0⟩, ⟨0⟩, ⟨0⟩⟩, ⟨⟨0⟩, ⟨0⟩, ⟨0⟩⟩, ⟨⟨0⟩, ⟨0⟩, ⟨0⟩⟩],
    normals := [], uvs := [], faces := [{ i1 := 1, i2 := 3, i3 := 2 }] }

/-- A file of 4294967870 bytes with one submesh "Big" of 71582790 (`0x04444446`)
vertices, stride marker `0x38` (stride 60) and 1 face: header 0..63, tag block
64..87, submesh header 88..455, alignment to 464, vertex records at
`464 + 60 * i` up to 4294967864, face record at 4294967864.  Vertex record 0
holds the position x = 1.0 and the value 7 in its padding byte 44 (offset
508); vertex record 71582789 (offset 4294967804) holds the position x = 2.0;
the face record holds the indices (0, 1, 2).  All other bytes are zero. -/
def hugeVertexBuf : ByteBuf :=
  { size := 4294967870,
    byte := fun i =>
      if i = 40 then 1
      else if i = 88 then 66 else if i = 89 then 105 else if i = 90 then 103
      else if i = 308 then 0x38
      else if i = 440 then 0x46 else if i = 441 then 0x44 else if i = 442 then 0x44
      else if i = 443 then 0x04
      else if i = 444 then 1
      else if i = 466 then 0x80 else if i = 467 then 0x3F
      else if i = 508 then 7
      else if i = 4294967807 then 0x40
      else if i = 4294967866 then 1 else if i = 4294967868 then 2
      else 0 }

/-- The descriptor `parseHeader` decodes from `hugeVertexBuf`. -/
def hugeInfo : SubmeshInfo :=
  { name := strLit "Big", materialName := strLit "Unknown", vertexCount := 71582790,
    faceCount := 1, stride := 60 }

/-- The file `hugeVertexBuf` with byte 568 changed from 0 to 5; byte 568 is byte 44
of vertex record 1 (which starts at 524), a padding byte. -/
def hugeVertexBuf2 : ByteBuf :=
  { size := hugeVertexBuf.size,
    byte := fun i => if i = 568 then 5 else hugeVertexBuf.byte i }

/-- The address `a` is a padding byte (record offsets 28 up to `stride - 1`) of
some vertex record of the descriptor list `descs` laid out from `offset`: the
records of a descriptor are `stride` bytes apart, its face block follows its
`vertexCount` records, and the next descriptor follows its `faceCount` face
records of 6 bytes. -/
def isPadding (a : Nat) : Nat → List SubmeshInfo → Prop
  | _, [] => False
  | offset, info :: rest =>
    (∃ i, i < info.vertexCount ∧ offset + i * info.stride + 28 ≤ a ∧
      a < offset + i * info.stride + info.stride) ∨
    isPadding a (offset + info.vertexCount * info.stride + info.faceCount * 6) rest

end SMB

namespace SMB

set_option maxRecDepth 100000

/-! ## The two layout walks -/

theorem parseMaterials_fst (d : ByteBuf) (n offset : Nat) (materials : List CppString) :
    (parseMaterials d n offset materials).1 = skipMaterials d n offset := by
  induction n generalizing offset materials with
  | zero => rfl
  | succ n ih =>
    simp only [parseMaterials, skipMaterials]
    rw [ih]
    rfl

theorem parseSubmeshHeaders_fst (d : ByteBuf) (materials : List CppString) (n offset : Nat)
    (submeshes : List SubmeshInfo) :
    (parseSubmeshHeaders d materials n offset submeshes).1 = offset + 368 * n := by
  induction n generalizing offset submeshes with
  | zero => rfl
  | succ n ih =>
    simp only [parseSubmeshHeaders]
    rw [ih]
    omega

/-- The cursor `parseHeader` ends with: the headers are counted in `size_t`. -/
theorem parseHeaderWalk_fst (c : SMBConverter) :
    (parseHeaderWalk c).1 + u32 (readU32 c.fileData 40 * 368) =
      vertexDataOffset c.fileData + 368 * readU32 c.fileData 40 := by
  simp only [parseHeaderWalk, parseHeaderTables, vertexDataOffset, parseSubmeshHeaders_fst,
    parseMaterials_fst, Nat.zero_add, Nat.reduceAdd]
  split_ifs <;> omega

/-- Both walks agree as long as `submeshCount * 368` fits in 32 bits. -/
theorem layout_walks_agree (c : SMBConverter)
    (h : readU32 c.fileData 40 * 368 < 4294967296) :
    (parseHeaderWalk c).1 = vertexDataOffset c.fileData := by
  have h1 := parseHeaderWalk_fst c
  have h2 : u32 (readU32 c.fileData 40 * 368) = readU32 c.fileData 40 * 368 :=
    Nat.mod_eq_of_lt h
  omega

/-- C1 (evaluation at the failing input): for the 4294967464-byte file `wrapBuf`,
whose submesh count is 11671107, `parseHeader` succeeds, every header record
lies inside the file, the walk of `parseHeader` ends at offset
4294967464 = 88 + 11671107 * 368, and the re-walk of `extractMeshData` ends at
168 = 88 + (11671107 * 368 mod 2^32): the two layout passes disagree. -/
theorem layout_walks_differ_at_wrapBuf :
    64 ≤ wrapBuf.size ∧
    (parseHeader (SMBConverter.fresh wrapBuf)).1 = true ∧
    readU32 wrapBuf 40 = 11671107 ∧
    88 + 368 * readU32 wrapBuf 40 ≤ wrapBuf.size ∧
    (parseHeaderWalk (SMBConverter.fresh wrapBuf)).1 = 4294967464 ∧
    vertexDataOffset wrapBuf = 168 ∧
    (parseHeaderWalk (SMBConverter.fresh wrapBuf)).1 ≠ vertexDataOffset wrapBuf := by
  have h40 : readU32 wrapBuf 40 = 11671107 := by decide
  have hv : vertexDataOffset wrapBuf = 168 := by decide
  have hw := parseHeaderWalk_fst (SMBConverter.fresh wrapBuf)
  have hd : (SMBConverter.fresh wrapBuf).fileData = wrapBuf := rfl
  rw [hd, h40, hv] at hw
  have hu : u32 (11671107 * 368) = 80 := by decide
  rw [hu] at hw
  refine ⟨by decide, by decide, h40, by rw [h40]; decide, by omega, hv, by omega⟩

/-! ## C2: the size guard -/

/-- C2: on a buffer shorter than 64 bytes `parseHeader` returns `false` and leaves
the material table and the descriptor list as they were. -/
theorem parseHeader_short (c : SMBConverter) (h : c.fileData.size < 64) :
    (parseHeader c).1 = false ∧
    (parseHeader c).2.materials = c.materials ∧
    (parseHeader c).2.submeshes = c.submeshes := by
  simp [parseHeader, h]

/-- Witness of C2: a fresh converter on the 63-byte file; both tables stay empty. -/
theorem parseHeader_short_witness :
    (SMBConverter.fresh shortBuf).fileData.size = 63 ∧
    (parseHeader (SMBConverter.fresh shortBuf)).1 = false ∧
    (parseHeader (SMBConverter.fresh shortBuf)).2.materials = [] ∧
    (parseHeader (SMBConverter.fresh shortBuf)).2.submeshes = [] :=
  ⟨by decide, parseHeader_short (SMBConverter.fresh shortBuf) (by decide)⟩

/-! ## Material names -/

/-- The name loop stops after `j` steps when the `j` bytes from `pos` on are
non-null bytes of the buffer and the loop condition fails at `pos + j`. -/
theorem scanName_eq (d : ByteBuf) (j : Nat) : ∀ fuel pos, j ≤ fuel →
    (∀ k, k < j → pos + k < d.size ∧ d.get (pos + k) ≠ 0) →
    (fuel = j ∨ ¬ (pos + j < d.size ∧ d.get (pos + j) ≠ 0)) →
    scanName d fuel pos = pos + j := by
  induction j with
  | zero =>
    intro fuel pos _ _ hstop
    cases fuel with
    | zero => rfl
    | succ f =>
      have hc : ¬ (pos < d.size ∧ d.get pos ≠ 0) := by
        rcases hstop with h | h
        · omega
        · simpa using h
      simp only [scanName, if_neg hc, Nat.add_zero]
  | succ j ih =>
    intro fuel pos hle hnz hstop
    cases fuel with
    | zero => omega
    | succ f =>
      have h0 : pos < d.size ∧ d.get pos ≠ 0 := by simpa using hnz 0 (by omega)
      simp only [scanName, if_pos h0]
      rw [ih f (pos + 1) (by omega)]
      · omega
      · intro k hk
        have := hnz (k + 1) (by omega)
        rwa [show pos + 1 + k = pos + (k + 1) by omega]
      · rcases hstop with h | h
        · left; omega
        · right; rwa [show pos + 1 + j = pos + (j + 1) by omega]

/-- With the fuel `size - offset` the name loop ends because its condition fails. -/
theorem scanName_exit (d : ByteBuf) : ∀ fuel pos, d.size - pos ≤ fuel →
    ¬ (scanName d fuel pos < d.size ∧ d.get (scanName d fuel pos) ≠ 0) := by
  intro fuel
  induction fuel with
  | zero =>
    intro pos h
    simp only [scanName]
    omega
  | succ f ih =>
    intro pos h
    simp only [scanName]
    split_ifs with hc
    · exact ih (pos + 1) (by omega)
    · exact hc

theorem scanName_of_nameAt (d : ByteBuf) (offset L : Nat) (h : nameAt d offset L) :
    scanName d (d.size - offset) offset = offset + (L - 1) := by
  obtain ⟨h1, h2, h3, h4⟩ := h
  apply scanName_eq d (L - 1) (d.size - offset) offset (by omega)
  · intro k hk
    exact ⟨by omega, h3 k (by omega)⟩
  · right
    intro hc
    exact hc.2 h4

theorem ceil_quarter (L : Nat) : ⌈(L : ℚ) / 4⌉₊ = (L + 3) / 4 := by
  rcases Nat.eq_zero_or_pos L with h | h
  · subst h; simp
  · obtain ⟨q, hq⟩ : ∃ q, (L + 3) / 4 = q + 1 := ⟨(L + 3) / 4 - 1, by omega⟩
    have h1 : q * 4 < L := by omega
    have h2 : L ≤ (q + 1) * 4 := by omega
    rw [hq, Nat.ceil_eq_iff (by omega)]
    constructor
    · rw [Nat.add_sub_cancel, lt_div_iff₀ (by norm_num)]
      exact_mod_cast h1
    · rw [div_le_iff₀ (by norm_num)]
      exact_mod_cast h2

/-- C9: when a material name of raw length `L` (terminator included) sits at the
cursor, one iteration of the material loop of `parseHeader` and one iteration
of the material loop of `extractMeshData` both move the cursor forward by
exactly `ceil(L / 4) * 4` bytes (and `parseHeader` appends the `L - 1` name
bytes to the material table). -/
theorem material_name_padding (d : ByteBuf) (offset L n : Nat) (materials : List CppString)
    (h : nameAt d offset L) :
    (parseMaterial d offset materials).1 = offset + ⌈(L : ℚ) / 4⌉₊ * 4 ∧
    parseMaterials d (n + 1) offset materials =
      parseMaterials d n (offset + ⌈(L : ℚ) / 4⌉₊ * 4)
        (materials ++ [bytesAt d offset (L - 1)]) ∧
    skipMaterials d (n + 1) offset = skipMaterials d n (offset + ⌈(L : ℚ) / 4⌉₊ * 4) := by
  have hs := scanName_of_nameAt d offset L h
  have hL : offset + (L - 1) - offset + 1 = L := by
    have := h.1
    omega
  have hp : parseMaterial d offset materials =
      (offset + ⌈(L : ℚ) / 4⌉₊ * 4, materials ++ [bytesAt d offset (L - 1)]) := by
    simp only [parseMaterial, hs, hL, ceil_quarter]
    rw [show offset + (L - 1) - offset = L - 1 by omega]
  refine ⟨by rw [hp], ?_, ?_⟩
  · simp only [parseMaterials, hp]
  · simp only [skipMaterials, hs, hL, ceil_quarter]

/-- Witness of C9 at the boundary cases: names of raw length 1, 3, 4 and 5 at
offset 64 consume 4, 4, 4 and 8 bytes. -/
theorem material_name_padding_witness :
    ((parseMaterial (nameBuf 1) 64 []).1 = 64 + 4 ∧ skipMaterials (nameBuf 1) 1 64 = 64 + 4) ∧
    ((parseMaterial (nameBuf 3) 64 []).1 = 64 + 4 ∧ skipMaterials (nameBuf 3) 1 64 = 64 + 4) ∧
    ((parseMaterial (nameBuf 4) 64 []).1 = 64 + 4 ∧ skipMaterials (nameBuf 4) 1 64 = 64 + 4) ∧
    ((parseMaterial (nameBuf 5) 64 []).1 = 64 + 8 ∧ skipMaterials (nameBuf 5) 1 64 = 64 + 8) := by
  have c1 : ⌈((1 : Nat) : ℚ) / 4⌉₊ * 4 = 4 := by rw [ceil_quarter]
  have c3 : ⌈((3 : Nat) : ℚ) / 4⌉₊ * 4 = 4 := by rw [ceil_quarter]
  have c4 : ⌈((4 : Nat) : ℚ) / 4⌉₊ * 4 = 4 := by rw [ceil_quarter]
  have c5 : ⌈((5 : Nat) : ℚ) / 4⌉₊ * 4 = 8 := by rw [ceil_quarter]
  have w1 := material_name_padding (nameBuf 1) 64 1 0 [] (by decide)
  have w3 := material_name_padding (nameBuf 3) 64 3 0 [] (by decide)
  have w4 := material_name_padding (nameBuf 4) 64 4 0 [] (by decide)
  have w5 := material_name_padding (nameBuf 5) 64 5 0 [] (by decide)
  rw [c1] at w1
  rw [c3] at w3
  rw [c4] at w4
  rw [c5] at w5
  exact ⟨⟨w1.1, w1.2.2⟩, ⟨w3.1, w3.2.2⟩, ⟨w4.1, w4.2.2⟩, ⟨w5.1, w5.2.2⟩⟩

/-! ## Submesh headers -/

theorem parseSubmeshHeaders_snd (d : ByteBuf) (materials : List CppString) (n offset : Nat)
    (submeshes : List SubmeshInfo) :
    (parseSubmeshHeaders d materials n offset submeshes).2 =
      submeshes ++ (List.range n).map (fun i => parseSubmeshHeader d materials (offset + 368 * i)) := by
  induction n generalizing offset submeshes with
  | zero => simp [parseSubmeshHeaders]
  | succ n ih =>
    simp only [parseSubmeshHeaders]
    rw [ih, List.range_succ_eq_map, List.map_cons, List.map_map, List.append_assoc]
    congr 1
    simp only [List.singleton_append, Nat.mul_zero, Nat.add_zero, List.cons.injEq, true_and]
    apply List.map_congr_left
    intro i _
    simp only [Function.comp_apply]
    congr 1
    omega

theorem parseHeaderTables_count (c : SMBConverter) :
    (parseHeaderTables c).2.2 = readU32 c.fileData 40 := by
  simp [parseHeaderTables]

/-- The descriptor list after `parseHeader`: the old one followed by one
descriptor per 368-byte record, in file order. -/
theorem parseHeader_submeshes (c : SMBConverter) (h : 64 ≤ c.fileData.size) :
    (parseHeader c).2.submeshes =
      c.submeshes ++ (List.range (readU32 c.fileData 40)).map
        (fun i => parseSubmeshHeader c.fileData (parseHeaderTables c).2.1
          ((parseHeaderTables c).1 + 368 * i)) := by
  have hs : ¬ c.fileData.size < 64 := by omega
  simp only [parseHeader, if_neg hs, parseHeaderWalk, parseSubmeshHeaders_snd,
    parseHeaderTables_count]

theorem vertexStrideOf_mem (m : Nat) :
    vertexStrideOf m = 60 ∨ vertexStrideOf m = 64 ∨ vertexStrideOf m = 68 := by
  unfold vertexStrideOf
  split_ifs <;> simp

/-- C10: on a buffer of at least 64 bytes `parseHeader` returns `true` and appends
one descriptor per submesh header; the stride of the `i`-th one is decided by
the 32-bit marker `m` at byte 220 of its record: 68 for `0x40`, 64 for `0x3C`,
60 for `0x38` and 64 for every other value, so it is always 60, 64 or 68. -/
theorem stride_resolution (c : SMBConverter) (h : 64 ≤ c.fileData.size) :
    (parseHeader c).1 = true ∧
    ∀ i, i < readU32 c.fileData 40 →
      ∃ info, (parseHeader c).2.submeshes[c.submeshes.length + i]? = some info ∧
        info.stride =
          (if readU32 c.fileData ((parseHeaderTables c).1 + 368 * i + 220) = 0x40 then 68
           else if readU32 c.fileData ((parseHeaderTables c).1 + 368 * i + 220) = 0x3C then 64
           else if readU32 c.fileData ((parseHeaderTables c).1 + 368 * i + 220) = 0x38 then 60
           else 64) ∧
        (info.stride = 60 ∨ info.stride = 64 ∨ info.stride = 68) := by
  have hs : ¬ c.fileData.size < 64 := by omega
  refine ⟨by simp [parseHeader, hs], ?_⟩
  intro i hi
  refine ⟨parseSubmeshHeader c.fileData (parseHeaderTables c).2.1
    ((parseHeaderTables c).1 + 368 * i), ?_, ?_, ?_⟩
  · rw [parseHeader_submeshes c h, List.getElem?_append_right (by omega)]
    simp [hi]
  · simp only [parseSubmeshHeader, vertexStrideOf]
  · exact vertexStrideOf_mem _

/-- Witness of C10: the scenario file with the unrecognised marker `0x99`
decodes, and its only descriptor gets stride 64. -/
theorem stride_resolution_witness :
    readU32 (ByteBuf.ofList (scenarioBytes 0x99)) (92 + 220) = 0x99 ∧
    (parseHeader (SMBConverter.fresh (ByteBuf.ofList (scenarioBytes 0x99)))).1 = true ∧
    (parseHeader (SMBConverter.fresh (ByteBuf.ofList (scenarioBytes 0x99)))).2.submeshes.map
      (fun info => info.stride) = [64] :=
  ⟨by decide,
   (stride_resolution (SMBConverter.fresh (ByteBuf.ofList (scenarioBytes 0x99))) (by decide)).1,
   by decide⟩

/-! ## Geometry -/

theorem readFaces_fst (d : ByteBuf) (n offset : Nat) :
    (readFaces d n offset).1 = (List.range n).map (fun j =>
      ({ i1 := readU16 d (offset + 6 * j), i2 := readU16 d (offset + 6 * j + 4),
         i3 := readU16 d (offset + 6 * j + 2) } : Face)) := by
  induction n generalizing offset with
  | zero => rfl
  | succ n ih =>
    simp only [readFaces]
    rw [ih, List.range_succ_eq_map, List.map_cons, List.map_map]
    simp only [Nat.mul_zero, Nat.add_zero, List.cons.injEq, true_and]
    apply List.map_congr_left
    intro j _
    simp only [Function.comp_apply, Face.mk.injEq]
    refine ⟨?_, ?_, ?_⟩ <;> congr 1 <;> omega

theorem readFaces_snd (d : ByteBuf) (n offset : Nat) :
    (readFaces d n offset).2 = offset + 6 * n := by
  induction n generalizing offset with
  | zero => rfl
  | succ n ih =>
    simp only [readFaces]
    rw [ih]
    omega

theorem extractSubmesh_shape (d : ByteBuf) (offset : Nat) (info : SubmeshInfo) :
    (extractSubmesh d offset info).1.shape = info.shape := by
  simp [extractSubmesh, SubmeshData.shape, SubmeshInfo.shape, readFaces_fst]

theorem extractSubmeshes_shape (d : ByteBuf) (descs : List SubmeshInfo) :
    ∀ offset, (extractSubmeshes d offset descs).map SubmeshData.shape =
      descs.map SubmeshInfo.shape := by
  induction descs with
  | nil => intro offset; rfl
  | cons info rest ih =>
    intro offset
    simp only [extractSubmeshes, List.map_cons, extractSubmesh_shape, ih]

theorem extractSubmeshes_getElem (d : ByteBuf) (descs : List SubmeshInfo) :
    ∀ offset k, (extractSubmeshes d offset descs)[k]? =
      (descs[k]?).map (fun info => (extractSubmesh d (submeshStart d offset descs k) info).1) := by
  induction descs with
  | nil => intro offset k; simp [extractSubmeshes]
  | cons info rest ih =>
    intro offset k
    cases k with
    | zero => simp [extractSubmeshes, submeshStart]
    | succ k => simp [extractSubmeshes, submeshStart, ih]

/-- C8: when all geometry reads are in bounds, `extractMeshData` returns exactly one
`SubmeshData` per descriptor, in the same order, carrying the name and the
material name of that descriptor, with `vertexCount` vertices, normals and UVs
and `faceCount` faces. -/
theorem extract_one_per_descriptor (c : SMBConverter) (_h : geometryInBounds c) :
    (extractMeshData c).map SubmeshData.shape = c.submeshes.map SubmeshInfo.shape :=
  extractSubmeshes_shape c.fileData c.submeshes _

/-- Witness of C8, the scenario file: the material "Red" and the descriptor of
"Cube" are decoded, the vertex block starts at offset 464, all reads are in
bounds, and the result is one submesh "Cube" with material "Red", 3 vertices,
3 normals, 3 UVs and 1 triangle. -/
theorem extract_one_per_descriptor_witness :
    (parseHeader (SMBConverter.fresh scenarioBuf)).1 = true ∧
    (parseHeader (SMBConverter.fresh scenarioBuf)).2.materials = [strLit "Red"] ∧
    (parseHeader (SMBConverter.fresh scenarioBuf)).2.submeshes =
      [{ name := strLit "Cube", materialName := strLit "Red", vertexCount := 3, faceCount := 1,
         stride := 64 }] ∧
    align16 (vertexDataOffset scenarioBuf) = 464 ∧
    geometryInBounds (parseHeader (SMBConverter.fresh scenarioBuf)).2 ∧
    (extractMeshData (parseHeader (SMBConverter.fresh scenarioBuf)).2).map SubmeshData.shape =
      [(strLit "Cube", strLit "Red", 3, 3, 3, 1)] := by
  have hs : (parseHeader (SMBConverter.fresh scenarioBuf)).2.submeshes =
      [{ name := strLit "Cube", materialName := strLit "Red", vertexCount := 3, faceCount := 1,
         stride := 64 }] := by decide
  have hb : geometryInBounds (parseHeader (SMBConverter.fresh scenarioBuf)).2 := by decide
  have hw := extract_one_per_descriptor (parseHeader (SMBConverter.fresh scenarioBuf)).2 hb
  rw [hs] at hw
  exact ⟨by decide, by decide, hs, by decide, hb, hw⟩

/-- C3 (as stated, refuted): the scenario file cut after 500 bytes has at least 64
bytes, its header decodes, the reads of its second and third vertex records
and of its face record extend past the end of the buffer, and
`extractMeshData` nevertheless returns the submesh "Cube" with 3 vertices and
1 face instead of failing. -/
theorem overrun_returns_geometry :
    64 ≤ truncatedBuf.size ∧
    (parseHeader (SMBConverter.fresh truncatedBuf)).1 = true ∧
    ¬ geometryInBounds (parseHeader (SMBConverter.fresh truncatedBuf)).2 ∧
    (extractMeshData (parseHeader (SMBConverter.fresh truncatedBuf)).2).map SubmeshData.shape =
      [(strLit "Cube", strLit "Red", 3, 3, 3, 1)] := by
  decide

/-- C3 (amended): `extractMeshData` has no bounds check and no failure outcome.
For every buffer of at least 64 bytes and every descriptor list for which some
vertex-record or face-record read extends past the end of the buffer, it still
returns one `SubmeshData` per descriptor, with `vertexCount` vertices, normals
and UVs and `faceCount` faces. -/
theorem extract_unchecked (c : SMBConverter) (_h64 : 64 ≤ c.fileData.size)
    (_hover : ¬ geometryInBounds c) :
    (extractMeshData c).length = c.submeshes.length ∧
    ∀ (k : Nat) (info : SubmeshInfo), c.submeshes[k]? = some info →
      ∃ sd : SubmeshData, (extractMeshData c)[k]? = some sd ∧
        sd.vertices.length = info.vertexCount ∧ sd.normals.length = info.vertexCount ∧
        sd.uvs.length = info.vertexCount ∧ sd.faces.length = info.faceCount := by
  have hm := extractSubmeshes_shape c.fileData c.submeshes
    (align16 (vertexDataOffset c.fileData))
  refine ⟨by simpa using congrArg List.length hm, ?_⟩
  intro k info hk
  have hg := extractSubmeshes_getElem c.fileData c.submeshes
    (align16 (vertexDataOffset c.fileData)) k
  rw [hk] at hg
  refine ⟨_, hg, ?_⟩
  have hsh := extractSubmesh_shape c.fileData
    (submeshStart c.fileData (align16 (vertexDataOffset c.fileData)) c.submeshes k) info
  simp only [SubmeshData.shape, SubmeshInfo.shape, Prod.mk.injEq] at hsh
  exact ⟨hsh.2.2.1, hsh.2.2.2.1, hsh.2.2.2.2.1, hsh.2.2.2.2.2⟩

/-- Witness of C3 (amended): the descriptor of the truncated scenario file, whose
reads overrun the buffer, still yields a submesh with 3 vertices and 1 face. -/
theorem extract_unchecked_witness :
    (extractMeshData (parseHeader (SMBConverter.fresh truncatedBuf)).2).length = 1 ∧
    ∃ sd : SubmeshData,
      (extractMeshData (parseHeader (SMBConverter.fresh truncatedBuf)).2)[0]? = some sd ∧
      sd.vertices.length = 3 ∧ sd.normals.length = 3 ∧ sd.uvs.length = 3 ∧
      sd.faces.length = 1 := by
  have hw := extract_unchecked (parseHeader (SMBConverter.fresh truncatedBuf)).2
    (by decide) (by decide)
  have hs : (parseHeader (SMBConverter.fresh truncatedBuf)).2.submeshes =
      [{ name := strLit "Cube", materialName := strLit "Red", vertexCount := 3, faceCount := 1,
         stride := 64 }] := by decide
  refine ⟨by rw [hw.1, hs]; rfl, ?_⟩
  exact hw.2 0 _ (by rw [hs]; rfl)

/-! ## Handedness -/

theorem get_lt (d : ByteBuf) (i : Nat) : d.get i < 256 := Nat.mod_lt _ (by norm_num)

theorem readU32_lt (d : ByteBuf) (off : Nat) : readU32 d off < 4294967296 := by
  have h0 := get_lt d off
  have h1 := get_lt d (off + 1)
  have h2 := get_lt d (off + 2)
  have h3 := get_lt d (off + 3)
  unfold readU32
  omega

theorem xor_sign_low (x : Nat) (hx : x < 2147483648) :
    x ^^^ 2147483648 = x + 2147483648 := by
  apply Nat.eq_of_testBit_eq
  intro i
  rw [Nat.testBit_xor, show (2147483648 : Nat) = 2 ^ 31 from rfl, Nat.testBit_two_pow,
    Nat.add_comm]
  rcases Nat.lt_trichotomy i 31 with hi | hi | hi
  · rw [Nat.testBit_two_pow_add_gt hi]
    simp [Nat.ne_of_gt hi]
  · subst hi
    rw [Nat.testBit_two_pow_add_eq]
    simp
  · have h32 : (2 : Nat) ^ 32 ≤ 2 ^ i := Nat.pow_le_pow_right (by norm_num) hi
    have h1 : x.testBit i = false := Nat.testBit_lt_two_pow (by omega)
    have h2 : (2 ^ 31 + x).testBit i = false := Nat.testBit_lt_two_pow (by omega)
    rw [h1, h2]
    simp [Nat.ne_of_lt hi]

/-- Flipping bit 31 of a 32-bit pattern, in arithmetic terms. -/
theorem xor_sign (x : Nat) (hx : x < 4294967296) :
    x ^^^ 2147483648 = if x < 2147483648 then x + 2147483648 else x - 2147483648 := by
  split_ifs with h
  · exact xor_sign_low x h
  · have hy := xor_sign_low (x - 2147483648) (by omega)
    have hx2 : x = x - 2147483648 + 2147483648 := by omega
    rw [hx2, ← hy, Nat.xor_assoc, Nat.xor_self, Nat.xor_zero]
    omega

/-- Negation of a `float` flips the sign and keeps exponent and fraction. -/
theorem neg_fields (x : F32) (hx : x.bits < 4294967296) :
    (F32.neg x).sign = !x.sign ∧ (F32.neg x).expField = x.expField ∧
    (F32.neg x).frac = x.frac := by
  have hxor := xor_sign x.bits hx
  simp only [F32.neg, F32.sign, F32.expField, F32.frac, hxor]
  split_ifs with h
  · refine ⟨?_, by omega, by omega⟩
    have h1 : (x.bits + 2147483648) / 2147483648 % 2 = 1 := by omega
    have h2 : x.bits / 2147483648 % 2 = 0 := by omega
    simp only [h1, h2]
    decide
  · refine ⟨?_, by omega, by omega⟩
    have h1 : (x.bits - 2147483648) / 2147483648 % 2 = 0 := by omega
    have h2 : x.bits / 2147483648 % 2 = 1 := by omega
    simp only [h1, h2]
    decide

/-- C7: for the `k`-th descriptor, whose vertex block starts at the cursor
`vertexBlockStart c k`, the `i`-th emitted position and normal are the stored
ones with the X component negated (bit 31 of the stored pattern flipped, sign
inverted, exponent and fraction fields kept) and the Y and Z components
bit-identical; the `j`-th emitted face is the stored `(i1, i2, i3)` (16-bit
values at bytes 0, 2, 4 of the record) reported as `(i1, i3, i2)`. -/
theorem handedness_correction (c : SMBConverter) (k : Nat) (info : SubmeshInfo)
    (hk : c.submeshes[k]? = some info) :
    ∃ sd : SubmeshData, (extractMeshData c)[k]? = some sd ∧
      (∀ i, i < info.vertexCount →
        ∃ p n : Vec3, sd.vertices[i]? = some p ∧ sd.normals[i]? = some n ∧
          p.x.bits =
            (readF32 c.fileData (vertOffsetOf (vertexBlockStart c k) info i)).bits
              ^^^ 0x80000000 ∧
          p.x.sign = !(readF32 c.fileData (vertOffsetOf (vertexBlockStart c k) info i)).sign ∧
          p.x.expField =
            (readF32 c.fileData (vertOffsetOf (vertexBlockStart c k) info i)).expField ∧
          p.x.frac = (readF32 c.fileData (vertOffsetOf (vertexBlockStart c k) info i)).frac ∧
          p.y = readF32 c.fileData (vertOffsetOf (vertexBlockStart c k) info i + 4) ∧
          p.z = readF32 c.fileData (vertOffsetOf (vertexBlockStart c k) info i + 8) ∧
          n.x.bits =
            (readF32 c.fileData (vertOffsetOf (vertexBlockStart c k) info i + 12)).bits
              ^^^ 0x80000000 ∧
          n.x.sign =
            !(readF32 c.fileData (vertOffsetOf (vertexBlockStart c k) info i + 12)).sign ∧
          n.x.expField =
            (readF32 c.fileData (vertOffsetOf (vertexBlockStart c k) info i + 12)).expField ∧
          n.x.frac =
            (readF32 c.fileData (vertOffsetOf (vertexBlockStart c k) info i + 12)).frac ∧
          n.y = readF32 c.fileData (vertOffsetOf (vertexBlockStart c k) info i + 16) ∧
          n.z = readF32 c.fileData (vertOffsetOf (vertexBlockStart c k) info i + 20)) ∧
      (∀ j, j < info.faceCount →
        sd.faces[j]? = some
          { i1 := readU16 c.fileData (faceBlockStart (vertexBlockStart c k) info + 6 * j),
            i2 := readU16 c.fileData (faceBlockStart (vertexBlockStart c k) info + 6 * j + 4),
            i3 := readU16 c.fileData (faceBlockStart (vertexBlockStart c k) info + 6 * j + 2) }) := by
  have hg := extractSubmeshes_getElem c.fileData c.submeshes
    (align16 (vertexDataOffset c.fileData)) k
  rw [hk] at hg
  refine ⟨_, hg, ?_, ?_⟩
  · intro i hi
    refine ⟨readPosition c.fileData (vertOffsetOf (vertexBlockStart c k) info i),
      readNormal c.fileData (vertOffsetOf (vertexBlockStart c k) info i), ?_, ?_, ?_⟩
    · simp only [extractSubmesh, List.getElem?_map, List.getElem?_range hi, Option.map_some',
        Option.map, vertexBlockStart]
    · simp only [extractSubmesh, List.getElem?_map, List.getElem?_range hi, Option.map_some',
        Option.map, vertexBlockStart]
    · have hp := neg_fields (readF32 c.fileData (vertOffsetOf (vertexBlockStart c k) info i))
        (readU32_lt _ _)
      have hn := neg_fields
        (readF32 c.fileData (vertOffsetOf (vertexBlockStart c k) info i + 12)) (readU32_lt _ _)
      exact ⟨rfl, hp.1, hp.2.1, hp.2.2, rfl, rfl, rfl, hn.1, hn.2.1, hn.2.2, rfl, rfl⟩
  · intro j hj
    simp only [extractSubmesh, readFaces_fst, List.getElem?_map, List.getElem?_range hj,
      Option.map_some', Option.map, vertexBlockStart]

/-- Witness of C7, the scenario file: the stored triangle (0, 1, 2) is reported as
(0, 2, 1); the first stored position (1.0, 2.0, 3.0) is emitted as
(-1.0, 2.0, 3.0) and the first stored normal (+0.0, 0.0, 1.0) as (-0.0, 0.0, 1.0). -/
theorem handedness_correction_witness :
    ∃ sd : SubmeshData,
      (extractMeshData (parseHeader (SMBConverter.fresh scenarioBuf)).2)[0]? = some sd ∧
      sd.faces[0]? = some { i1 := 0, i2 := 2, i3 := 1 } ∧
      sd.vertices[0]? = some { x := ⟨0xBF800000⟩, y := ⟨0x40000000⟩, z := ⟨0x40400000⟩ } ∧
      sd.normals[0]? = some { x := ⟨0x80000000⟩, y := ⟨0⟩, z := ⟨0x3F800000⟩ } := by
  obtain ⟨sd, hsd, hv, hf⟩ := handedness_correction
    (parseHeader (SMBConverter.fresh scenarioBuf)).2 0
    { name := strLit "Cube", materialName := strLit "Red", vertexCount := 3, faceCount := 1,
      stride := 64 } (by decide)
  obtain ⟨p, n, hp, hn, hpx, -, -, -, hpy, hpz, hnx, -, -, -, hny, hnz⟩ := hv 0 (by decide)
  have ep : p = { x := ⟨p.x.bits⟩, y := p.y, z := p.z } := rfl
  have en : n = { x := ⟨n.x.bits⟩, y := n.y, z := n.z } := rfl
  refine ⟨sd, hsd, ?_, ?_, ?_⟩
  · rw [hf 0 (by decide)]
    decide
  · rw [hp, ep, hpx, hpy, hpz]
    decide
  · rw [hn, en, hnx, hny, hnz]
    decide

/-! ## The half-float decoder -/

namespace F32

theorem normShift_eq (bound m s : Nat) (hm : m < bound) (hs : s = 0 ∨ bound ≤ 2 * m) :
    ∀ fuel sh, sh ≤ s → s - sh ≤ fuel → normShift bound (m * 2 ^ s) fuel sh = s := by
  intro fuel
  induction fuel with
  | zero =>
    intro sh h1 h2
    simp only [normShift]
    omega
  | succ fuel ih =>
    intro sh h1 h2
    simp only [normShift]
    rcases Nat.eq_or_lt_of_le h1 with h | h
    · subst h
      rw [Nat.mul_div_cancel _ (Nat.pos_pow_of_pos _ (by norm_num)), if_pos hm]
    · have hb : bound ≤ 2 * m := by
        rcases hs with h0 | h0
        · omega
        · exact h0
      have hsplit : m * 2 ^ s = m * 2 ^ (s - sh) * 2 ^ sh := by
        rw [Nat.mul_assoc, ← Nat.pow_add]
        congr 2
        omega
      have hge : 2 * m ≤ m * 2 ^ (s - sh) := by
        have : 2 ^ 1 ≤ 2 ^ (s - sh) := Nat.pow_le_pow_right (by norm_num) (by omega)
        calc 2 * m = m * 2 ^ 1 := by ring
          _ ≤ m * 2 ^ (s - sh) := Nat.mul_le_mul_left _ this
      rw [hsplit, Nat.mul_div_cancel _ (Nat.pos_pow_of_pos _ (by norm_num)),
        if_neg (by omega), ← hsplit]
      exact ih (sh + 1) (by omega) (by omega)

theorem roundMag_exact (prec emin maxExp p q m s : Nat) (hq : 0 < q) (hprec : 1 ≤ prec)
    (h : p * 2 ^ emin = q * (m * 2 ^ s)) (hm : m < 2 ^ prec)
    (hs : s = 0 ∨ 2 ^ (prec - 1) ≤ m) (hmax : s + 2 ≤ maxExp) :
    roundMag prec emin maxExp p q = s * 2 ^ (prec - 1) + m := by
  have hpp : 2 ^ prec = 2 * 2 ^ (prec - 1) := by
    rw [← Nat.pow_succ']
    congr 1
    omega
  have hn0 : p * 2 ^ emin / q = m * 2 ^ s := by
    rw [h, Nat.mul_div_cancel_left _ hq]
  have hsh : normShift (2 ^ prec) (m * 2 ^ s) maxExp 0 = s :=
    normShift_eq (2 ^ prec) m s hm (by rcases hs with h0 | h0; · left; exact h0
                                       · right; omega) maxExp 0 (by omega) (by omega)
  have hden : 0 < q * 2 ^ s := Nat.mul_pos hq (Nat.pos_pow_of_pos _ (by norm_num))
  have hp : p * 2 ^ emin = q * 2 ^ s * m := by rw [h]; ring
  simp only [roundMag, hn0, hsh]
  rw [hp, Nat.mul_div_cancel_left _ hden, Nat.mul_mod_right]
  have hc : ¬ (q * 2 ^ s < 2 * 0 ∨ q * 2 ^ s = 2 * 0 ∧ m % 2 = 1) := by omega
  rw [if_neg hc]
  apply Nat.min_eq_left
  have : (s + 2) * 2 ^ (prec - 1) ≤ maxExp * 2 ^ (prec - 1) := Nat.mul_le_mul_right _ hmax
  have h3 : (s + 2) * 2 ^ (prec - 1) = s * 2 ^ (prec - 1) + 2 * 2 ^ (prec - 1) := by ring
  omega

theorem roundRatio_exact (neg : Bool) (p q m s : Nat) (hq : 0 < q)
    (h : p * 2 ^ 149 = q * (m * 2 ^ s)) (hc : Canon s m) :
    roundRatio neg p q = pack neg s m := by
  obtain ⟨h1, h2, h3⟩ := hc
  have := roundMag_exact 24 149 255 p q m s hq (by norm_num) h (by norm_num; exact h1)
    (by norm_num; exact h2) (by omega)
  simp only [roundRatio, pack, this]
  norm_num

theorem pack_bits (neg : Bool) (s m : Nat) :
    (pack neg s m).bits = (if neg then 2147483648 else 0) + (s * 8388608 + m) := rfl

theorem pack_fields (neg : Bool) (s m : Nat) (hc : Canon s m) :
    (pack neg s m).sign = neg ∧ (pack neg s m).isNaN = false ∧ (pack neg s m).isInf = false ∧
    (pack neg s m).mant = m ∧ (pack neg s m).expo = s := by
  obtain ⟨h1, h2, h3⟩ := hc
  have hb := pack_bits neg s m
  have hS : (pack neg s m).bits / 2147483648 % 2 = if neg then 1 else 0 := by
    rw [hb]; cases neg <;> simp only [↓reduceIte, Bool.false_eq_true] <;> omega
  have hE : 8388608 ≤ m → (pack neg s m).bits / 8388608 % 256 = s + 1 := by
    intro hm; rw [hb]; cases neg <;> simp only [↓reduceIte, Bool.false_eq_true] <;> omega
  have hE0 : m < 8388608 → (pack neg s m).bits / 8388608 % 256 = 0 := by
    intro hm; rw [hb]; cases neg <;> simp only [↓reduceIte, Bool.false_eq_true] <;> omega
  have hF : 8388608 ≤ m → (pack neg s m).bits % 8388608 = m - 8388608 := by
    intro hm; rw [hb]; cases neg <;> simp only [↓reduceIte, Bool.false_eq_true] <;> omega
  have hF0 : m < 8388608 → (pack neg s m).bits % 8388608 = m := by
    intro hm; rw [hb]; cases neg <;> simp only [↓reduceIte, Bool.false_eq_true] <;> omega
  have hsign : (pack neg s m).sign = neg := by
    simp only [sign, hS]; cases neg <;> simp
  rcases Nat.lt_or_ge m 8388608 with hm | hm
  · have hs0 : s = 0 := by omega
    simp only [isNaN, isInf, mant, expo, expField, frac, hE0 hm, hF0 hm, hsign]
    simp [hs0]
  · simp only [isNaN, isInf, mant, expo, expField, frac, hE hm, hF hm, hsign]
    refine ⟨trivial, ?_, ?_, ?_, ?_⟩
    · simp; omega
    · simp; omega
    · simp; omega
    · simp

theorem mul_pack (na nb : Bool) (sa ma sb mb s m : Nat) (ha : Canon sa ma) (hb : Canon sb mb)
    (hc : Canon s m) (h : ma * mb * 2 ^ (sa + sb) = 2 ^ 149 * (m * 2 ^ s)) :
    (pack na sa ma).mul (pack nb sb mb) = pack (xor na nb) s m := by
  obtain ⟨a1, a2, a3, a4, a5⟩ := pack_fields na sa ma ha
  obtain ⟨b1, b2, b3, b4, b5⟩ := pack_fields nb sb mb hb
  simp only [mul, a1, a2, a3, a4, a5, b1, b2, b3, b4, b5, Bool.false_eq_true, or_self,
    ↓reduceIte]
  apply roundRatio_exact _ _ _ _ _ (by positivity) _ hc
  rw [h]
  ring

theorem div_pack (na nb : Bool) (sa ma sb mb s m : Nat) (ha : Canon sa ma) (hb : Canon sb mb)
    (hc : Canon s m) (hmb : mb ≠ 0)
    (h : ma * 2 ^ sa * 2 ^ 149 = mb * 2 ^ sb * (m * 2 ^ s)) :
    (pack na sa ma).div (pack nb sb mb) = pack (xor na nb) s m := by
  obtain ⟨a1, a2, a3, a4, a5⟩ := pack_fields na sa ma ha
  obtain ⟨b1, b2, b3, b4, b5⟩ := pack_fields nb sb mb hb
  simp only [div, a1, a2, a3, a4, a5, b1, b2, b3, b4, b5, Bool.false_eq_true, or_self,
    ↓reduceIte, hmb]
  exact roundRatio_exact _ _ _ _ _ (by positivity) h hc

theorem add_pack (sa ma sb mb s m : Nat) (ha : Canon sa ma) (hb : Canon sb mb)
    (hc : Canon s m) (hpos : 0 < ma) (h : ma * 2 ^ sa + mb * 2 ^ sb = m * 2 ^ s) :
    (pack false sa ma).add (pack false sb mb) = pack false s m := by
  obtain ⟨a1, a2, a3, a4, a5⟩ := pack_fields false sa ma ha
  obtain ⟨b1, b2, b3, b4, b5⟩ := pack_fields false sb mb hb
  have hsum : ((ma * 2 ^ sa : Nat) : Int) + ((mb * 2 ^ sb : Nat) : Int) = ((m * 2 ^ s : Nat) : Int) := by
    rw [← h]; push_cast; ring
  have hne : ((m * 2 ^ s : Nat) : Int) ≠ 0 := by
    have : 0 < ma * 2 ^ sa := Nat.mul_pos hpos (Nat.pos_pow_of_pos _ (by norm_num))
    have : 0 < m * 2 ^ s := by omega
    exact_mod_cast this.ne'
  have hnn : ¬ ((m * 2 ^ s : Nat) : Int) < 0 := by
    have : (0 : Int) ≤ ((m * 2 ^ s : Nat) : Int) := Int.natCast_nonneg _
    omega
  simp only [add, toInt, a1, a2, a3, a4, a5, b1, b2, b3, b4, b5, Bool.false_eq_true, or_self,
    ↓reduceIte, hsum, hne, hnn, decide_False, Int.natAbs_ofNat]
  apply roundRatio_exact _ _ _ _ _ (by positivity) _ hc
  ring

theorem ofInt_pack (n s m : Nat) (hc : Canon s m) (h : n * 2 ^ 149 = m * 2 ^ s) :
    ofInt (n : Int) = pack false s m := by
  have hnn : ¬ ((n : Int) < 0) := by omega
  simp only [ofInt, hnn, decide_False, Int.natAbs_ofNat]
  apply roundRatio_exact _ _ _ _ _ (by norm_num) _ hc
  rw [h]; ring

theorem pow2_pack (k : Int) (s : Nat) (hs : 1 ≤ s ∧ s ≤ 253) (hk : k = (s : Int) - 126) :
    pow2 k = pack false s 8388608 := by
  simp only [pow2]
  apply roundRatio_exact _ _ _ _ _ (by positivity) _ ⟨by norm_num, Or.inr (le_refl _), hs.2⟩
  rcases Nat.lt_or_ge s 126 with h | h
  · have h1 : k.toNat = 0 := by omega
    have h2 : (-k).toNat = 126 - s := by omega
    rw [h1, h2, show (8388608 : Nat) = 2 ^ 23 from rfl, ← Nat.pow_add, ← Nat.pow_add,
      ← Nat.pow_add]
    congr 1
    omega
  · have h1 : k.toNat = s - 126 := by omega
    have h2 : (-k).toNat = 0 := by omega
    rw [h1, h2, show (8388608 : Nat) = 2 ^ 23 from rfl, ← Nat.pow_add, ← Nat.pow_add,
      ← Nat.pow_add]
    congr 1
    omega

end F32

theorem one_eq_pack : F32.one = F32.pack false 126 8388608 := rfl
theorem negOne_eq_pack : F32.negOne = F32.pack true 126 8388608 := rfl
theorem f1024_eq_pack : F32.f1024 = F32.pack false 136 8388608 := rfl

theorem canon_unit (s : Nat) (hs : s ≤ 253) : F32.Canon s 8388608 :=
  ⟨by norm_num, Or.inr (le_refl _), hs⟩

theorem exists_log2 (f : Nat) (h0 : 0 < f) (h1 : f < 1024) :
    ∃ L, L ≤ 9 ∧ 2 ^ L ≤ f ∧ f < 2 ^ (L + 1) := by
  refine ⟨Nat.log 2 f, ?_, Nat.pow_log_le_self 2 (by omega), Nat.lt_pow_succ_log_self (by norm_num) f⟩
  have h2 : 2 ^ Nat.log 2 f ≤ f := Nat.pow_log_le_self 2 (by omega)
  by_contra hc
  have h3 : (2 : Nat) ^ 10 ≤ 2 ^ Nat.log 2 f := Nat.pow_le_pow_right (by norm_num) (by omega)
  omega

/-- The division `fraction / 1024.0f` is exact: the quotient is `pack false s m` with
`m * 2 ^ s / 2 ^ 149 = f / 1024`. -/
theorem div1024 (f : Nat) (hf : f < 1024) :
    ∃ s m, F32.Canon s m ∧ (F32.ofInt (f : Int)).div F32.f1024 = F32.pack false s m ∧
      m * 2 ^ s = f * 2 ^ 139 ∧ (m = 0 ∧ s = 0 ∨ 14 ≤ s ∧ s ≤ 125) := by
  rcases Nat.eq_zero_or_pos f with h0 | h0
  · subst h0
    have hz : F32.Canon 0 0 := ⟨by norm_num, Or.inl rfl, by norm_num⟩
    refine ⟨0, 0, hz, ?_, by norm_num, Or.inl ⟨rfl, rfl⟩⟩
    have h1 : F32.ofInt ((0 : Nat) : Int) = F32.pack false 0 0 :=
      F32.ofInt_pack 0 0 0 hz (by norm_num)
    rw [h1, f1024_eq_pack]
    exact F32.div_pack false false 0 0 136 8388608 0 0 hz (canon_unit 136 (by norm_num)) hz
      (by norm_num) (by norm_num)
  · obtain ⟨L, hL, hlo, hhi⟩ := exists_log2 f h0 hf
    have hpow : 2 ^ (23 - L) * 2 ^ L = 8388608 := by
      rw [← Nat.pow_add, show 23 - L + L = 23 by omega]
    have hhi2 : f < 2 ^ L * 2 := by rw [← Nat.pow_succ]; exact hhi
    have hc : F32.Canon (L + 126) (f * 2 ^ (23 - L)) := by
      refine ⟨?_, Or.inr ?_, by omega⟩
      · calc f * 2 ^ (23 - L) < 2 ^ L * 2 * 2 ^ (23 - L) :=
              Nat.mul_lt_mul_of_pos_right hhi2 (by positivity)
          _ = 2 * (2 ^ (23 - L) * 2 ^ L) := by ring
          _ = 16777216 := by rw [hpow]
      · calc 8388608 = 2 ^ (23 - L) * 2 ^ L := by rw [hpow]
          _ = 2 ^ L * 2 ^ (23 - L) := by ring
          _ ≤ f * 2 ^ (23 - L) := Nat.mul_le_mul_right _ hlo
    have hc2 : F32.Canon (L + 116) (f * 2 ^ (23 - L)) :=
      ⟨hc.1, Or.inr (hc.2.1.resolve_left (by omega)), by omega⟩
    have he1 : 2 ^ (23 - L) * 2 ^ (L + 126) = 2 ^ 149 := by
      rw [← Nat.pow_add, show 23 - L + (L + 126) = 149 by omega]
    have he2 : 2 ^ (23 - L) * 2 ^ (L + 116) = 2 ^ 139 := by
      rw [← Nat.pow_add, show 23 - L + (L + 116) = 139 by omega]
    have h1 : F32.ofInt ((f : Nat) : Int) = F32.pack false (L + 126) (f * 2 ^ (23 - L)) :=
      F32.ofInt_pack f _ _ hc (by rw [Nat.mul_assoc, he1])
    refine ⟨L + 116, f * 2 ^ (23 - L), hc2, ?_, by rw [Nat.mul_assoc, he2], Or.inr ⟨by omega, by omega⟩⟩
    rw [h1, f1024_eq_pack]
    apply F32.div_pack false false _ _ 136 8388608 _ _ hc (canon_unit 136 (by norm_num)) hc2
      (by norm_num)
    have e3 : f * 2 ^ (23 - L) * 2 ^ (L + 126) * 2 ^ 149 = f * (2 ^ (23 - L) * 2 ^ (L + 126)) * 2 ^ 149 := by ring
    have e4 : 8388608 * 2 ^ 136 * (f * 2 ^ (23 - L) * 2 ^ (L + 116)) = 8388608 * 2 ^ 136 * (f * (2 ^ (23 - L) * 2 ^ (L + 116))) := by ring
    rw [e3, e4, he1, he2]
    norm_num
    ring

theorem and_mask_shift (h k n : Nat) :
    (h &&& ((2 ^ n - 1) <<< k)) >>> k = h / 2 ^ k % 2 ^ n := by
  apply Nat.eq_of_testBit_eq
  intro i
  rw [Nat.testBit_shiftRight, Nat.testBit_and, Nat.testBit_shiftLeft,
    Nat.testBit_two_pow_sub_one, ← Nat.shiftRight_eq_div_pow, Nat.testBit_mod_two_pow,
    Nat.testBit_shiftRight]
  simp [Bool.and_comm]

theorem half_sign_field (h : Nat) : (h &&& 0x8000) >>> 15 = h / 32768 % 2 :=
  and_mask_shift h 15 1

theorem half_exp_field (h : Nat) : (h &&& 0x7C00) >>> 10 = h / 1024 % 32 :=
  and_mask_shift h 10 5

theorem half_frac_field (h : Nat) : h &&& 0x03FF = h % 1024 :=
  Nat.and_pow_two_sub_one_eq_mod h 10

theorem readU16_lt (d : ByteBuf) (off : Nat) : readU16 d off < 65536 := by
  have h0 := get_lt d off
  have h1 := get_lt d (off + 1)
  unfold readU16
  omega

theorem sign_factor (b : Nat) :
    (if b % 2 ≠ 0 then F32.negOne else F32.one) = F32.pack (decide (b % 2 = 1)) 126 8388608 := by
  rcases Nat.mod_two_eq_zero_or_one b with h | h <;> simp [h] <;> rfl

/-- Bit pattern of the result for a normalized half-float. -/
theorem decodeHalf_normal (h : Nat) (he1 : 1 ≤ h / 1024 % 32) (he2 : h / 1024 % 32 ≤ 30) :
    decodeHalf h =
      F32.pack (decide (h / 32768 % 2 = 1)) (h / 1024 % 32 + 111) (8388608 + h % 1024 * 8192) := by
  have hf : h % 1024 < 1024 := Nat.mod_lt _ (by norm_num)
  generalize hfe : h % 1024 = f at hf
  generalize hee : h / 1024 % 32 = e at he1 he2
  have hB : F32.pow2 ((e : Int) - 15) = F32.pack false (e + 111) 8388608 :=
    F32.pow2_pack _ _ ⟨by omega, by omega⟩ (by push_cast; omega)
  have hAB : (F32.pack (decide (h / 32768 % 2 = 1)) 126 8388608).mul
      (F32.pack false (e + 111) 8388608) =
      F32.pack (decide (h / 32768 % 2 = 1)) (e + 111) 8388608 := by
    have := F32.mul_pack (decide (h / 32768 % 2 = 1)) false 126 8388608 (e + 111) 8388608
      (e + 111) 8388608 (canon_unit _ (by norm_num)) (canon_unit _ (by omega))
      (canon_unit _ (by omega))
      (by rw [show 126 + (e + 111) = 149 + (e + 88) by omega, Nat.pow_add,
            show e + 111 = 23 + (e + 88) by omega, Nat.pow_add]; norm_num; ring)
    simpa using this
  obtain ⟨s, m, hc, hD, hval, -⟩ := div1024 f hf
  have hcE : F32.Canon 126 (8388608 + f * 8192) := ⟨by omega, Or.inr (by omega), by norm_num⟩
  have hE : F32.one.add (F32.pack false s m) = F32.pack false 126 (8388608 + f * 8192) := by
    rw [one_eq_pack]
    apply F32.add_pack _ _ _ _ _ _ (canon_unit _ (by norm_num)) hc hcE (by norm_num)
    rw [hval]
    norm_num
    ring
  have hcR : F32.Canon (e + 111) (8388608 + f * 8192) :=
    ⟨by omega, Or.inr (by omega), by omega⟩
  have hR : (F32.pack (decide (h / 32768 % 2 = 1)) (e + 111) 8388608).mul
      (F32.pack false 126 (8388608 + f * 8192)) =
      F32.pack (decide (h / 32768 % 2 = 1)) (e + 111) (8388608 + f * 8192) := by
    have := F32.mul_pack (decide (h / 32768 % 2 = 1)) false (e + 111) 8388608 126
      (8388608 + f * 8192) (e + 111) (8388608 + f * 8192) (canon_unit _ (by omega)) hcE hcR
      (by rw [show e + 111 + 126 = 126 + (e + 111) by omega, Nat.pow_add]; norm_num; ring)
    simpa using this
  simp only [decodeHalf, half_sign_field, half_exp_field, half_frac_field, hfe, hee]
  rw [if_neg (by omega), if_neg (by omega), sign_factor, hB, hAB, hD, hE, hR]

/-- Result for a subnormal half-float (exponent field 0): a finite value of
magnitude `f * 2 ^ 125 / 2 ^ 149 = f / 2 ^ 24` with the sign of the pattern. -/
theorem decodeHalf_subnormal (h : Nat) (he : h / 1024 % 32 = 0) :
    ∃ s m, F32.Canon s m ∧ decodeHalf h = F32.pack (decide (h / 32768 % 2 = 1)) s m ∧
      m * 2 ^ s = h % 1024 * 2 ^ 125 ∧ (h % 1024 = 0 → s = 0 ∧ m = 0) := by
  have hf : h % 1024 < 1024 := Nat.mod_lt _ (by norm_num)
  generalize hfe : h % 1024 = f at hf
  have hB : F32.pow2 (-14) = F32.pack false 112 8388608 :=
    F32.pow2_pack _ _ ⟨by omega, by omega⟩ (by norm_num)
  have hAB : (F32.pack (decide (h / 32768 % 2 = 1)) 126 8388608).mul
      (F32.pack false 112 8388608) =
      F32.pack (decide (h / 32768 % 2 = 1)) 112 8388608 := by
    have := F32.mul_pack (decide (h / 32768 % 2 = 1)) false 126 8388608 112 8388608
      112 8388608 (canon_unit _ (by norm_num)) (canon_unit _ (by norm_num))
      (canon_unit _ (by norm_num)) (by norm_num)
    simpa using this
  obtain ⟨s, m, hc, hD, hval, hs⟩ := div1024 f hf
  have hcR : F32.Canon (s - 14) m := ⟨hc.1, by
    rcases hs with h0 | h0
    · left; omega
    · right; rcases hc.2.1 with h1 | h1
      · omega
      · exact h1, by have := hc.2.2; omega⟩
  have hprod : m * 2 ^ (s - 14) * 2 ^ 14 = f * 2 ^ 139 := by
    rcases hs with h0 | h0
    · rw [h0.1] at hval ⊢
      omega
    · rw [Nat.mul_assoc, ← Nat.pow_add, show s - 14 + 14 = s by omega, hval]
  have hR : (F32.pack (decide (h / 32768 % 2 = 1)) 112 8388608).mul (F32.pack false s m) =
      F32.pack (decide (h / 32768 % 2 = 1)) (s - 14) m := by
    have := F32.mul_pack (decide (h / 32768 % 2 = 1)) false 112 8388608 s m (s - 14) m
      (canon_unit _ (by norm_num)) hc hcR
      (by
        rcases hs with h0 | h0
        · rw [h0.1]; simp
        · rw [show 112 + s = 126 + (s - 14) by omega, Nat.pow_add]
          norm_num
          ring)
    simpa using this
  refine ⟨s - 14, m, hcR, ?_, ?_, ?_⟩
  · simp only [decodeHalf, half_sign_field, half_exp_field, half_frac_field, hfe, he]
    rw [if_pos trivial, sign_factor, hB, hAB, hD, hR]
  · have h125 : f * 2 ^ 139 = f * 2 ^ 125 * 2 ^ 14 := by norm_num; ring
    rw [h125] at hprod
    exact Nat.eq_of_mul_eq_mul_right (by norm_num) hprod
  · intro hf0
    rcases hs with h0 | h0
    · exact ⟨by omega, h0.1⟩
    · exfalso
      rw [hf0] at hval
      have hm0 : m = 0 := by simpa using hval
      rcases hc.2.1 with h1 | h1 <;> omega

/-- Result for the exponent field `0x1F`. -/
theorem decodeHalf_special (h : Nat) (he : h / 1024 % 32 = 31) :
    decodeHalf h =
      if h % 1024 ≠ 0 then F32.qNaN
      else if h / 32768 % 2 ≠ 0 then ⟨0xFF800000⟩ else ⟨0x7F800000⟩ := by
  simp only [decodeHalf, half_sign_field, half_exp_field, half_frac_field, he]
  rw [if_pos trivial]
  rfl

theorem toRat_pack (neg : Bool) (s m : Nat) (hc : F32.Canon s m) :
    (F32.pack neg s m).toRat = (if neg then -1 else 1) * ((m : ℚ) * 2 ^ s / 2 ^ 149) := by
  obtain ⟨h1, -, -, h4, h5⟩ := F32.pack_fields neg s m hc
  simp only [F32.toRat, h1, h4, h5]

theorem pack_lt (neg : Bool) (s m : Nat) (hc : F32.Canon s m) :
    (F32.pack neg s m).bits < 4294967296 := by
  obtain ⟨h1, h2, h3⟩ := hc
  rw [F32.pack_bits]
  split_ifs <;> omega

theorem mag_normal (e f : Nat) :
    (((8388608 + f * 8192 : Nat) : ℚ)) * 2 ^ (e + 111) / 2 ^ 149 =
      2 ^ ((e : ℤ) - 15) * (1 + (f : ℚ) / 1024) := by
  rw [zpow_sub₀ (by norm_num : (2 : ℚ) ≠ 0), zpow_natCast, pow_add]
  push_cast
  norm_num
  field_simp
  ring

theorem mag_subnormal (m s f : Nat) (h : m * 2 ^ s = f * 2 ^ 125) :
    (m : ℚ) * 2 ^ s / 2 ^ 149 = 2 ^ (-14 : ℤ) * ((f : ℚ) / 1024) := by
  have hq : (m : ℚ) * 2 ^ s = (f : ℚ) * 2 ^ 125 := by exact_mod_cast h
  rw [hq]
  norm_num
  ring

theorem sign_pow (b : Nat) (hb : b < 2) :
    (if decide (b % 2 = 1) = true then (-1 : ℚ) else 1) = (-1) ^ b := by
  interval_cases b <;> simp

/-- Value of the conversion for every pattern whose exponent field is not `0x1F`. -/
theorem decodeHalf_value (h : Nat) (hlt : h < 65536) (he : h / 1024 % 32 ≠ 31) :
    (decodeHalf h).isNaN = false ∧ (decodeHalf h).isInf = false ∧
    (decodeHalf h).toRat =
      if h / 1024 % 32 = 0 then
        (-1) ^ (h / 32768) * 2 ^ (-14 : ℤ) * (((h % 1024 : Nat) : ℚ) / 1024)
      else
        (-1) ^ (h / 32768) * 2 ^ (((h / 1024 % 32 : Nat) : ℤ) - 15) *
          (1 + ((h % 1024 : Nat) : ℚ) / 1024) := by
  have hs2 : h / 32768 < 2 := by omega
  have hE : h / 1024 % 32 < 32 := Nat.mod_lt _ (by norm_num)
  by_cases h0 : h / 1024 % 32 = 0
  · obtain ⟨s, m, hc, hd, hv, -⟩ := decodeHalf_subnormal h h0
    obtain ⟨-, p2, p3, -, -⟩ := F32.pack_fields (decide (h / 32768 % 2 = 1)) s m hc
    rw [hd, if_pos h0, toRat_pack _ _ _ hc, mag_subnormal m s _ hv, sign_pow _ hs2]
    exact ⟨p2, p3, by ring⟩
  · have hc : F32.Canon (h / 1024 % 32 + 111) (8388608 + h % 1024 * 8192) := by
      have : h % 1024 < 1024 := Nat.mod_lt _ (by norm_num)
      exact ⟨by omega, Or.inr (by omega), by omega⟩
    obtain ⟨-, p2, p3, -, -⟩ := F32.pack_fields (decide (h / 32768 % 2 = 1)) _ _ hc
    rw [decodeHalf_normal h (by omega) (by omega), if_neg h0, toRat_pack _ _ _ hc, mag_normal,
      sign_pow _ hs2]
    exact ⟨p2, p3, by ring⟩

/-- The conversion always yields a 32-bit pattern. -/
theorem decodeHalf_bits_lt (h : Nat) : (decodeHalf h).bits < 4294967296 := by
  have hE : h / 1024 % 32 < 32 := Nat.mod_lt _ (by norm_num)
  by_cases h31 : h / 1024 % 32 = 31
  · rw [decodeHalf_special h h31]
    split_ifs <;> decide
  · by_cases h0 : h / 1024 % 32 = 0
    · obtain ⟨s, m, hc, hd, -, -⟩ := decodeHalf_subnormal h h0
      rw [hd]
      exact pack_lt _ _ _ hc
    · have hc : F32.Canon (h / 1024 % 32 + 111) (8388608 + h % 1024 * 8192) := by
        have : h % 1024 < 1024 := Nat.mod_lt _ (by norm_num)
        exact ⟨by omega, Or.inr (by omega), by omega⟩
      rw [decodeHalf_normal h (by omega) (by omega)]
      exact pack_lt _ _ _ hc

/-- C4: for every 16-bit pattern `h` stored at `offset` whose exponent field
`e = h / 1024 % 32` is not `0x1F`, with sign bit `s = h / 32768` and fraction
`f = h % 1024`, `readHalfFloat` returns a finite `float` whose value is exactly
`(-1)^s * 2^-14 * (f / 1024)` when `e = 0` and exactly
`(-1)^s * 2^(e - 15) * (1 + f / 1024)` otherwise: no rounding occurs. -/
theorem readHalfFloat_value (data : ByteBuf) (offset h : Nat)
    (hh : readU16 data offset = h) (he : h / 1024 % 32 ≠ 31) :
    (readHalfFloat data offset).isNaN = false ∧
    (readHalfFloat data offset).isInf = false ∧
    (readHalfFloat data offset).toRat =
      if h / 1024 % 32 = 0 then
        (-1) ^ (h / 32768) * 2 ^ (-14 : ℤ) * (((h % 1024 : Nat) : ℚ) / 1024)
      else
        (-1) ^ (h / 32768) * 2 ^ (((h / 1024 % 32 : Nat) : ℤ) - 15) *
          (1 + ((h % 1024 : Nat) : ℚ) / 1024) := by
  have hlt : h < 65536 := hh ▸ readU16_lt data offset
  simp only [readHalfFloat, hh]
  exact decodeHalf_value h hlt he

/-- Witness of C4: the pattern `0x3E00` (s = 0, e = 15, f = 512) decodes to 3/2 and
the subnormal pattern `0x8001` (s = 1, e = 0, f = 1) to `-2^-24`. -/
theorem readHalfFloat_value_witness :
    (readHalfFloat (halfBuf 0x3E00) 0).toRat = 3 / 2 ∧
    (readHalfFloat (halfBuf 0x8001) 0).toRat = -(1 / 16777216) := by
  have h1 := (readHalfFloat_value (halfBuf 0x3E00) 0 0x3E00 (by decide) (by decide)).2.2
  have h2 := (readHalfFloat_value (halfBuf 0x8001) 0 0x8001 (by decide) (by decide)).2.2
  constructor
  · rw [h1]; norm_num
  · rw [h2]; norm_num

/-- C5: `readHalfFloat` yields a 32-bit `float` pattern for every 16-bit input `h`;
exponent field `0x1F` with a non-zero fraction gives a NaN, with a zero
fraction `+infinity` when the sign bit is clear and `-infinity` when it is
set; `0x0000` gives `+0.0` and `0x8000` gives `-0.0`. -/
theorem readHalfFloat_total (data : ByteBuf) (offset h : Nat) (hh : readU16 data offset = h) :
    (readHalfFloat data offset).bits < 4294967296 ∧
    (h / 1024 % 32 = 31 → h % 1024 ≠ 0 → (readHalfFloat data offset).isNaN = true) ∧
    (h / 1024 % 32 = 31 → h % 1024 = 0 → h / 32768 = 0 →
      readHalfFloat data offset = F32.inf false) ∧
    (h / 1024 % 32 = 31 → h % 1024 = 0 → h / 32768 = 1 →
      readHalfFloat data offset = F32.inf true) ∧
    (h = 0x0000 → readHalfFloat data offset = F32.zero false) ∧
    (h = 0x8000 → readHalfFloat data offset = F32.zero true) := by
  have hlt : h < 65536 := hh ▸ readU16_lt data offset
  have hz : ∀ b : Bool, F32.pack b 0 0 = F32.zero b := fun b => rfl
  simp only [readHalfFloat, hh]
  refine ⟨?_, ?_, ?_, ?_, ?_, ?_⟩
  · exact decodeHalf_bits_lt h
  · intro h31 hf
    rw [decodeHalf_special h h31, if_pos hf]
    decide
  · intro h31 hf hs
    rw [decodeHalf_special h h31, if_neg (by omega), if_neg (by omega)]
    rfl
  · intro h31 hf hs
    rw [decodeHalf_special h h31, if_neg (by omega), if_pos (by omega)]
    rfl
  · intro h0
    subst h0
    obtain ⟨s, m, -, hd, -, hz0⟩ := decodeHalf_subnormal 0 (by decide)
    obtain ⟨rfl, rfl⟩ := hz0 (by decide)
    rw [hd]
    rfl
  · intro h0
    subst h0
    obtain ⟨s, m, -, hd, -, hz0⟩ := decodeHalf_subnormal 0x8000 (by decide)
    obtain ⟨rfl, rfl⟩ := hz0 (by decide)
    rw [hd]
    rfl

/-- Witness of C5: `0x7E01` is a NaN, `0x7C00` and `0xFC00` are the two infinities,
`0x0000` and `0x8000` the two zeros. -/
theorem readHalfFloat_total_witness :
    (readHalfFloat (halfBuf 0x7E01) 0).isNaN = true ∧
    readHalfFloat (halfBuf 0x7C00) 0 = ⟨0x7F800000⟩ ∧
    readHalfFloat (halfBuf 0xFC00) 0 = ⟨0xFF800000⟩ ∧
    readHalfFloat (halfBuf 0x0000) 0 = ⟨0x00000000⟩ ∧
    readHalfFloat (halfBuf 0x8000) 0 = ⟨0x80000000⟩ :=
  ⟨(readHalfFloat_total (halfBuf 0x7E01) 0 0x7E01 (by decide)).2.1 (by decide) (by decide),
   (readHalfFloat_total (halfBuf 0x7C00) 0 0x7C00 (by decide)).2.2.1 (by decide) (by decide)
     (by decide),
   (readHalfFloat_total (halfBuf 0xFC00) 0 0xFC00 (by decide)).2.2.2.1 (by decide) (by decide)
     (by decide),
   (readHalfFloat_total (halfBuf 0x0000) 0 0x0000 (by decide)).2.2.2.2.1 rfl,
   (readHalfFloat_total (halfBuf 0x8000) 0 0x8000 (by decide)).2.2.2.2.2 rfl⟩

theorem encodeHalf_normal (b : Nat) (hb : b < 65536) (he1 : 1 ≤ b / 1024 % 32)
    (he2 : b / 1024 % 32 ≤ 30) : encodeHalf (decodeHalf b) = b := by
  have hf : b % 1024 < 1024 := Nat.mod_lt _ (by norm_num)
  have hc : F32.Canon (b / 1024 % 32 + 111) (8388608 + b % 1024 * 8192) :=
    ⟨by omega, Or.inr (by omega), by omega⟩
  obtain ⟨p1, p2, p3, p4, p5⟩ := F32.pack_fields (decide (b / 32768 % 2 = 1)) _ _ hc
  obtain ⟨e, hee⟩ : ∃ e, b / 1024 % 32 = e + 1 := ⟨b / 1024 % 32 - 1, by omega⟩
  have hr : F32.roundMag 11 24 31 ((8388608 + b % 1024 * 8192) * 2 ^ (b / 1024 % 32 + 111))
      (2 ^ 149) = e * 2 ^ (11 - 1) + (1024 + b % 1024) := by
    apply F32.roundMag_exact 11 24 31 _ _ (1024 + b % 1024) e (by positivity) (by norm_num) _
      (by norm_num; omega) (Or.inr (by norm_num)) (by omega)
    rw [hee, show e + 1 + 111 = 112 + e by omega, Nat.pow_add]
    norm_num
    ring
  rw [decodeHalf_normal b he1 he2]
  simp only [encodeHalf, p1, p2, p3, p4, p5, hr, Bool.false_eq_true, ↓reduceIte]
  rcases Nat.mod_two_eq_zero_or_one (b / 32768) with h | h <;> simp [h] <;> omega

/-- C6: for every normalized 16-bit pattern (exponent field 1..30) stored at
`offset`, encoding the result of `readHalfFloat` with the canonical binary16
encoder gives the pattern back; hence two normalized patterns that decode to
the same `float` are equal. -/
theorem half_round_trip (data : ByteBuf) (offset : Nat)
    (he1 : 1 ≤ readU16 data offset / 1024 % 32) (he2 : readU16 data offset / 1024 % 32 ≤ 30) :
    encodeHalf (readHalfFloat data offset) = readU16 data offset ∧
    ∀ (data2 : ByteBuf) (offset2 : Nat), 1 ≤ readU16 data2 offset2 / 1024 % 32 →
      readU16 data2 offset2 / 1024 % 32 ≤ 30 →
      readHalfFloat data offset = readHalfFloat data2 offset2 →
      readU16 data offset = readU16 data2 offset2 := by
  have h1 := encodeHalf_normal (readU16 data offset) (readU16_lt _ _) he1 he2
  refine ⟨h1, ?_⟩
  intro data2 offset2 h3 h4 heq
  have h2 := encodeHalf_normal (readU16 data2 offset2) (readU16_lt _ _) h3 h4
  simp only [readHalfFloat] at heq
  rw [← h1, ← h2, heq]

/-- Witness of C6: the normalized pattern `0xC2A5` survives the round trip. -/
theorem half_round_trip_witness :
    encodeHalf (readHalfFloat (halfBuf 0xC2A5) 0) = 0xC2A5 := by
  have h := (half_round_trip (halfBuf 0xC2A5) 0 (by decide) (by decide)).1
  rw [h]
  decide

/-! ## Header tables -/

theorem parseHeader_true (c : SMBConverter) (h : 64 ≤ c.fileData.size) :
    (parseHeader c).1 = true := by
  have hs : ¬ c.fileData.size < 64 := by omega
  simp [parseHeader, hs]

theorem parseHeader_materials (c : SMBConverter) (h : 64 ≤ c.fileData.size) :
    (parseHeader c).2.materials = (parseHeaderTables c).2.1 := by
  have hs : ¬ c.fileData.size < 64 := by omega
  simp only [parseHeader, if_neg hs, parseHeaderWalk]

theorem parseHeaderTables_materials (c : SMBConverter) :
    (parseHeaderTables c).2.1 =
      (parseMaterials c.fileData (readU32 c.fileData 52) 64 c.materials).2 := by
  simp [parseHeaderTables]

theorem parseHeader_getElem (c : SMBConverter) (h : 64 ≤ c.fileData.size) (i : Nat)
    (hi : i < readU32 c.fileData 40) :
    (parseHeader c).2.submeshes[c.submeshes.length + i]? =
      some (parseSubmeshHeader c.fileData (parseHeaderTables c).2.1
        ((parseHeaderTables c).1 + 368 * i)) := by
  rw [parseHeader_submeshes c h, List.getElem?_append_right (by omega)]
  simp [hi]

/-- C11: on a buffer of at least 64 bytes `parseHeader` returns `true`, and the
descriptor of the `i`-th submesh header, whose 32-bit material index at byte
48 of the record is `k`, carries the `k`-th entry (0-based) of the material
table when `k` is less than the length of the table and the string "Unknown"
otherwise. -/
theorem material_binding (c : SMBConverter) (h : 64 ≤ c.fileData.size) :
    (parseHeader c).1 = true ∧
    ∀ i, i < readU32 c.fileData 40 →
      ∃ info : SubmeshInfo,
        (parseHeader c).2.submeshes[c.submeshes.length + i]? = some info ∧
        (readU32 c.fileData ((parseHeaderTables c).1 + 368 * i + 48) <
            (parseHeader c).2.materials.length →
          (parseHeader c).2.materials[readU32 c.fileData
            ((parseHeaderTables c).1 + 368 * i + 48)]? = some info.materialName) ∧
        ((parseHeader c).2.materials.length ≤
            readU32 c.fileData ((parseHeaderTables c).1 + 368 * i + 48) →
          info.materialName = strLit "Unknown") := by
  refine ⟨parseHeader_true c h, ?_⟩
  intro i hi
  refine ⟨_, parseHeader_getElem c h i hi, ?_, ?_⟩
  · intro hk
    rw [parseHeader_materials c h] at hk ⊢
    simp only [parseSubmeshHeader, dif_pos hk]
    exact List.getElem?_eq_getElem hk
  · intro hk
    rw [parseHeader_materials c h] at hk
    simp only [parseSubmeshHeader, dif_neg (Nat.not_lt.mpr hk)]

/-- Witness of C11: in the scenario file the material index 0 binds "Cube" to
"Red"; with the index set to 7 the descriptor gets "Unknown" and `parseHeader`
still succeeds. -/
theorem material_binding_witness :
    ((parseHeader (SMBConverter.fresh scenarioBuf)).1 = true ∧
      (parseHeader (SMBConverter.fresh scenarioBuf)).2.submeshes.map
        (fun info => info.materialName) = [strLit "Red"]) ∧
    ((parseHeader (SMBConverter.fresh unknownMaterialBuf)).1 = true ∧
      readU32 unknownMaterialBuf (92 + 48) = 7 ∧
      (parseHeader (SMBConverter.fresh unknownMaterialBuf)).2.submeshes.map
        (fun info => info.materialName) = [strLit "Unknown"]) :=
  ⟨⟨(material_binding (SMBConverter.fresh scenarioBuf) (by decide)).1, by decide⟩,
   ⟨(material_binding (SMBConverter.fresh unknownMaterialBuf) (by decide)).1, by decide,
    by decide⟩⟩

theorem bytesAt_succ (d : ByteBuf) (pos len : Nat) :
    bytesAt d pos (len + 1) = d.get pos :: bytesAt d (pos + 1) len := by
  simp only [bytesAt, List.range_succ_eq_map, List.map_cons, List.map_map, Nat.add_zero,
    List.cons.injEq, true_and]
  apply List.map_congr_left
  intro k _
  simp only [Function.comp_apply]
  congr 1
  omega

theorem bytesAt_length (d : ByteBuf) (pos len : Nat) : (bytesAt d pos len).length = len := by
  simp [bytesAt]

theorem scanSubmeshName_ge (d : ByteBuf) (offset : Nat) :
    ∀ fuel pos, pos ≤ scanSubmeshName d offset fuel pos := by
  intro fuel
  induction fuel with
  | zero => intro pos; simp [scanSubmeshName]
  | succ f ih =>
    intro pos
    simp only [scanSubmeshName]
    split_ifs
    · exact Nat.le_trans (Nat.le_succ _) (ih (pos + 1))
    · exact Nat.le_refl _

theorem scanSubmeshName_le (d : ByteBuf) (offset : Nat) :
    ∀ fuel pos, pos ≤ offset + 48 → scanSubmeshName d offset fuel pos ≤ offset + 48 := by
  intro fuel
  induction fuel with
  | zero => intro pos h; simpa [scanSubmeshName] using h
  | succ f ih =>
    intro pos h
    simp only [scanSubmeshName]
    split_ifs with hc
    · exact ih (pos + 1) (by omega)
    · exact h

/-- Inside the buffer the name loop of line 136 collects the bytes before the
first null byte among the `fuel` bytes from `pos`. -/
theorem scanSubmeshName_takeWhile (d : ByteBuf) (offset : Nat) :
    ∀ fuel pos, pos + fuel ≤ d.size → pos + fuel ≤ offset + 48 →
      bytesAt d pos (scanSubmeshName d offset fuel pos - pos) =
        (bytesAt d pos fuel).takeWhile (fun b => decide (b ≠ 0)) := by
  intro fuel
  induction fuel with
  | zero =>
    intro pos _ _
    simp [scanSubmeshName, bytesAt]
  | succ f ih =>
    intro pos h1 h2
    rw [bytesAt_succ]
    simp only [scanSubmeshName]
    by_cases hz : d.get pos = 0
    · have hc : ¬ (pos < offset + 48 ∧ pos < d.size ∧ d.get pos ≠ 0) := by
        intro hc; exact hc.2.2 hz
      rw [if_neg hc]
      simp [hz, bytesAt]
    · have hc : pos < offset + 48 ∧ pos < d.size ∧ d.get pos ≠ 0 := ⟨by omega, by omega, hz⟩
      rw [if_pos hc]
      have hge := scanSubmeshName_ge d offset f (pos + 1)
      have hsub : scanSubmeshName d offset f (pos + 1) - pos =
          (scanSubmeshName d offset f (pos + 1) - (pos + 1)) + 1 := by omega
      rw [hsub, bytesAt_succ, ih (pos + 1) (by omega) (by omega)]
      simp [hz]

/-- C15: on a buffer of at least 64 bytes whose submesh header records lie inside
the buffer, `parseHeader` appends exactly `submeshCount` descriptors, in file
order, after the descriptors it already held; the `i`-th one is decoded from
the 368-byte record at `H + 368 * i`, `H` being the cursor after the
tag/collision block: its name is the run of bytes of the record's first 48
bytes before the first null byte (all 48 when there is none), and its
`vertexCount` and `faceCount` are the little-endian 32-bit values at record
offsets 352 and 356. -/
theorem submesh_header_decoding (c : SMBConverter) (h : 64 ≤ c.fileData.size)
    (hin : (parseHeaderTables c).1 + 368 * readU32 c.fileData 40 ≤ c.fileData.size) :
    (parseHeader c).2.submeshes.length = c.submeshes.length + readU32 c.fileData 40 ∧
    (∀ j, j < c.submeshes.length → (parseHeader c).2.submeshes[j]? = c.submeshes[j]?) ∧
    ∀ i, i < readU32 c.fileData 40 →
      ∃ info : SubmeshInfo,
        (parseHeader c).2.submeshes[c.submeshes.length + i]? = some info ∧
        info.name =
          (bytesAt c.fileData ((parseHeaderTables c).1 + 368 * i) 48).takeWhile
            (fun b => decide (b ≠ 0)) ∧
        info.name.length ≤ 48 ∧
        info.vertexCount = readU32 c.fileData ((parseHeaderTables c).1 + 368 * i + 352) ∧
        info.faceCount = readU32 c.fileData ((parseHeaderTables c).1 + 368 * i + 356) := by
  refine ⟨by simp [parseHeader_submeshes c h], ?_, ?_⟩
  · intro j hj
    rw [parseHeader_submeshes c h, List.getElem?_append_left hj]
  · intro i hi
    have hname := scanSubmeshName_takeWhile c.fileData ((parseHeaderTables c).1 + 368 * i) 48
      ((parseHeaderTables c).1 + 368 * i) (by omega) (by omega)
    refine ⟨_, parseHeader_getElem c h i hi, ?_, ?_, rfl, rfl⟩
    · simp only [parseSubmeshHeader]
      exact hname
    · simp only [parseSubmeshHeader, bytesAt_length]
      have := scanSubmeshName_le c.fileData ((parseHeaderTables c).1 + 368 * i) 48
        ((parseHeaderTables c).1 + 368 * i) (by omega)
      omega

/-- Witness of C15: the scenario file has one header record, at 92..459 inside
the 662-byte buffer; it decodes to the name "Cube", 3 vertices and 1 face. -/
theorem submesh_header_decoding_witness :
    (parseHeaderTables (SMBConverter.fresh scenarioBuf)).1 = 92 ∧
    (parseHeader (SMBConverter.fresh scenarioBuf)).2.submeshes.length = 1 ∧
    (parseHeader (SMBConverter.fresh scenarioBuf)).2.submeshes.map
      (fun info => (info.name, info.vertexCount, info.faceCount)) = [(strLit "Cube", 3, 1)] := by
  have hw := submesh_header_decoding (SMBConverter.fresh scenarioBuf) (by decide) (by decide)
  have hc : readU32 (SMBConverter.fresh scenarioBuf).fileData 40 = 1 := by decide
  rw [hc] at hw
  exact ⟨by decide, hw.1, by decide⟩

theorem parseMaterial_of_nameAt (d : ByteBuf) (offset L : Nat) (materials : List CppString)
    (h : nameAt d offset L) :
    parseMaterial d offset materials =
      (offset + paddedLength L, materials ++ [bytesAt d offset (L - 1)]) := by
  have hs := scanName_of_nameAt d offset L h
  have hL : offset + (L - 1) - offset + 1 = L := by
    have := h.1
    omega
  simp only [parseMaterial, hs, hL, paddedLength]
  rw [show offset + (L - 1) - offset = L - 1 by omega]

theorem parseMaterials_of_namesAt (d : ByteBuf) (Ls : List Nat) :
    ∀ start materials, namesAt d start Ls = true →
      (parseMaterials d Ls.length start materials).2 = materials ++ namesOf d start Ls := by
  induction Ls with
  | nil => intro start materials _; simp [parseMaterials, namesOf]
  | cons L rest ih =>
    intro start materials hn
    simp only [namesAt, Bool.and_eq_true, decide_eq_true_eq] at hn
    simp only [List.length_cons, parseMaterials, parseMaterial_of_nameAt d start L materials hn.1]
    rw [ih _ _ hn.2]
    simp [namesOf]

theorem namesOf_length (d : ByteBuf) (Ls : List Nat) :
    ∀ start, (namesOf d start Ls).length = Ls.length := by
  induction Ls with
  | nil => intro start; rfl
  | cons L rest ih => intro start; simp [namesOf, ih]

/-- C16: on a buffer of at least 64 bytes whose `materialsCount` names, of raw
lengths `Ls`, are each null-terminated inside the buffer, the first starting at
byte 64 and each following one at the previous start plus the previous length
padded to a multiple of 4, `parseHeader` appends exactly `materialsCount`
names to the material table, in file order, each being the bytes from its
start up to (not including) its first null byte. -/
theorem material_table_decoding (c : SMBConverter) (Ls : List Nat)
    (h : 64 ≤ c.fileData.size) (hcount : Ls.length = readU32 c.fileData 52)
    (hn : namesAt c.fileData 64 Ls = true) :
    (parseHeader c).2.materials = c.materials ++ namesOf c.fileData 64 Ls ∧
    (parseHeader c).2.materials.length = c.materials.length + readU32 c.fileData 52 := by
  have hm : (parseHeader c).2.materials = c.materials ++ namesOf c.fileData 64 Ls := by
    rw [parseHeader_materials c h, parseHeaderTables_materials, ← hcount,
      parseMaterials_of_namesAt c.fileData Ls 64 c.materials hn]
  refine ⟨hm, ?_⟩
  rw [hm, List.length_append, namesOf_length, hcount]

/-- Witness of C16: the two names "Wood" (raw length 5, so 8 bytes are consumed)
and "Red" (raw length 4) at bytes 64 and 72 are decoded in that order. -/
theorem material_table_decoding_witness :
    readU32 twoNamesBuf 52 = 2 ∧
    (parseHeader (SMBConverter.fresh twoNamesBuf)).2.materials =
      [strLit "Wood", strLit "Red"] := by
  have hw := (material_table_decoding (SMBConverter.fresh twoNamesBuf) [5, 4] (by decide)
    (by decide) (by decide)).1
  refine ⟨by decide, ?_⟩
  rw [hw]
  decide

/-! ## The tag/collision block and the alignment -/

/-- The cursor of `parseHeader` before the tag/collision block. -/
theorem parseHeaderTables_fst (c : SMBConverter) :
    (parseHeaderTables c).1 =
      (parseMaterials c.fileData (readU32 c.fileData 52) 64 c.materials).1 +
        (if readU32 c.fileData 48 > 0 then u32 (u32 (readU32 c.fileData 48 * 48) + 24)
         else if readU32 c.fileData 44 > 0 then u32 (u32 (readU32 c.fileData 44 * 428) + 24)
         else 24) := by
  simp only [parseHeaderTables, Nat.zero_add, Nat.reduceAdd]
  split_ifs <;> rfl

/-- Both passes skip `tagBlockSize` bytes as long as the size fits in 32 bits. -/
theorem tag_block_skip_of_small (c : SMBConverter)
    (h : tagBlockSize (readU32 c.fileData 48) (readU32 c.fileData 44) < 4294967296) :
    (parseHeaderTables c).1 =
      (parseMaterials c.fileData (readU32 c.fileData 52) 64 c.materials).1 +
        tagBlockSize (readU32 c.fileData 48) (readU32 c.fileData 44) ∧
    vertexDataOffset c.fileData =
      skipMaterials c.fileData (readU32 c.fileData 52) 64 +
        tagBlockSize (readU32 c.fileData 48) (readU32 c.fileData 44) +
        u32 (readU32 c.fileData 40 * 368) := by
  rw [parseHeaderTables_fst]
  simp only [vertexDataOffset, tagBlockSize, u32, Nat.zero_add, Nat.reduceAdd] at h ⊢
  split_ifs at h ⊢ <;> constructor <;> omega

/-- C14 (evaluation at the failing input): for the 4294967736-byte file
`tagWrapBuf`, with `tagCount = 89478485` and no collision meshes, the tag
block of `tagCount * 48 + 24 = 4294967304` bytes lies inside the file and the
submesh header follows it at offset 4294967368, but both passes advance the
cursor over the block by 8 bytes only (from 64 to 72): `parseHeader` decodes
the zero bytes at 72 as the submesh header (empty name, no vertices) instead
of the header of "Cube", and `extractMeshData` ends its walk at 72 + 368. -/
theorem tag_block_skip_wraps_at_tagWrapBuf :
    readU32 tagWrapBuf 48 = 89478485 ∧ readU32 tagWrapBuf 44 = 0 ∧
    tagBlockSize (readU32 tagWrapBuf 48) (readU32 tagWrapBuf 44) = 4294967304 ∧
    64 + tagBlockSize (readU32 tagWrapBuf 48) (readU32 tagWrapBuf 44) + 368 ≤ tagWrapBuf.size ∧
    (parseMaterials tagWrapBuf (readU32 tagWrapBuf 52) 64 []).1 = 64 ∧
    (parseHeaderTables (SMBConverter.fresh tagWrapBuf)).1 = 64 + 8 ∧
    vertexDataOffset tagWrapBuf = 64 + 8 + 368 ∧
    (parseHeader (SMBConverter.fresh tagWrapBuf)).2.submeshes =
      [{ name := [], materialName := strLit "Unknown", vertexCount := 0, faceCount := 0,
         stride := 64 }] ∧
    parseSubmeshHeader tagWrapBuf [] 4294967368 =
      { name := strLit "Cube", materialName := strLit "Unknown", vertexCount := 3,
        faceCount := 0, stride := 64 } := by
  decide

theorem align16_dvd (p : Nat) : 16 ∣ align16 p := by
  unfold align16
  split_ifs <;> omega

theorem submeshStart_zero (d : ByteBuf) (offset : Nat) (descs : List SubmeshInfo) :
    submeshStart d offset descs 0 = offset := by
  cases descs <;> rfl

/-- C17: the vertex-data start offset used by `extractMeshData` is `align16 p`,
`p` being the cursor after the submesh headers, and `align16 p` is the
smallest multiple of 16 that is greater than or equal to `p`: it is a multiple
of 16, it lies between `p` and `p + 15`, no smaller multiple of 16 is at least
`p`, and it is `p` itself when `p` is a multiple of 16. -/
theorem align16_least (c : SMBConverter) (p : Nat) :
    extractMeshData c =
      extractSubmeshes c.fileData (align16 (vertexDataOffset c.fileData)) c.submeshes ∧
    vertexBlockStart c 0 = align16 (vertexDataOffset c.fileData) ∧
    16 ∣ align16 p ∧ p ≤ align16 p ∧ align16 p - p ≤ 15 ∧
    (∀ m, 16 ∣ m → p ≤ m → align16 p ≤ m) ∧
    (16 ∣ p → align16 p = p) := by
  refine ⟨rfl, submeshStart_zero _ _ _, align16_dvd p, ?_, ?_, ?_, ?_⟩
  · unfold align16; split_ifs <;> omega
  · unfold align16; split_ifs <;> omega
  · intro m hm hp
    unfold align16
    split_ifs <;> omega
  · intro hp
    unfold align16
    split_ifs <;> omega

/-! ## The OBJ text -/

theorem vertexBase_zero (l : List SubmeshData) : vertexBase l 0 = 0 := by
  simp [vertexBase]

theorem vertexBase_cons_succ (s : SubmeshData) (l : List SubmeshData) (k : Nat) :
    vertexBase (s :: l) (k + 1) = s.vertices.length + vertexBase l k := by
  simp [vertexBase]

/-- The export loop writes, for each position `k`, the lines of that submesh with
the running offset `vertexBase`. -/
theorem exportLoop_eq (fmt : F32 → CppString) (l : List SubmeshData) :
    ∀ i V, exportLoop fmt i V l =
      (List.range l.length).flatMap (fun k =>
        match l[k]? with
        | some sd => submeshLines fmt (i + k) (V + vertexBase l k) sd
        | none => []) := by
  induction l with
  | nil => intro i V; simp [exportLoop]
  | cons s rest ih =>
    intro i V
    simp only [exportLoop, List.length_cons, List.range_succ_eq_map, List.flatMap_cons,
      List.getElem?_cons_zero, Nat.add_zero, vertexBase_zero]
    congr 1
    rw [ih, List.flatMap_map]
    apply List.flatMap_congr
    intro k _
    simp only [List.getElem?_cons_succ, vertexBase_cons_succ]
    rw [show i + 1 + k = i + (k + 1) by omega, Nat.add_assoc]

/-- C12: when the output file opens, `exportToOBJ` writes the comment line and then,
for each decoded submesh at position `k`, its block of lines with the running
vertex offset `V = vertexBase .. k`, the sum of the vertex counts of the
submeshes before it; the block ends with one line per face `(a, b, c)`, which
reads `f x/x/x y/y/y z/z/z` with `x = a + 1 + V`, `y = b + 1 + V` and
`z = c + 1 + V` in decimal. -/
theorem obj_face_indices (fmt : F32 → CppString) (c : SMBConverter) :
    (exportToOBJ fmt true c).1 = true ∧
    (exportToOBJ fmt true c).2 =
      strLit "# Exported by SMB2OBJ Converter (C++)" ::
        (List.range (extractMeshData c).length).flatMap (fun k =>
          match (extractMeshData c)[k]? with
          | some sd => submeshLines fmt k (vertexBase (extractMeshData c) k) sd
          | none => []) ∧
    ∀ (k V : Nat) (sd : SubmeshData),
      ∃ other : List CppString,
        other.length = 1 + sd.vertices.length + sd.uvs.length + sd.normals.length ∧
        submeshLines fmt k V sd = other ++ sd.faces.map (fun f =>
          strLit "f " ++
            to_string (f.i1 + 1 + V) ++ strLit "/" ++ to_string (f.i1 + 1 + V) ++ strLit "/" ++
              to_string (f.i1 + 1 + V) ++ strLit " " ++
            to_string (f.i2 + 1 + V) ++ strLit "/" ++ to_string (f.i2 + 1 + V) ++ strLit "/" ++
              to_string (f.i2 + 1 + V) ++ strLit " " ++
            to_string (f.i3 + 1 + V) ++ strLit "/" ++ to_string (f.i3 + 1 + V) ++ strLit "/" ++
              to_string (f.i3 + 1 + V)) := by
  refine ⟨rfl, ?_, ?_⟩
  · simp only [exportToOBJ, exportLoop_eq, Nat.zero_add]
    rfl
  · intro k V sd
    refine ⟨_, ?_, rfl⟩
    simp only [List.length_append, List.length_map, List.length_singleton]

/-- The OBJ text for two submeshes of 3 and 4 vertices: the face (0, 2, 1) of the
first is written with indices 1, 3, 2 and the face (1, 3, 2) of the second
with indices 5, 7, 6. -/
theorem obj_face_indices_example :
    exportLoop (fun _ => []) 0 0 [boxA, boxB] =
      [strLit "o Box_1_0", strLit "v   ", strLit "v   ", strLit "v   ",
       strLit "f 1/1/1 3/3/3 2/2/2",
       strLit "o Box_1_1", strLit "v   ", strLit "v   ", strLit "v   ", strLit "v   ",
       strLit "f 5/5/5 7/7/7 6/6/6"] := by
  decide

theorem decimalDigits_value (fuel : Nat) :
    ∀ n, n < fuel → ofDecimal (decimalDigits fuel n) = n := by
  induction fuel with
  | zero => intro n h; omega
  | succ f ih =>
    intro n h
    simp only [decimalDigits]
    split_ifs with h10
    · simp [ofDecimal]
    · have := ih (n / 10) (by omega)
      simp only [ofDecimal, List.foldl_append, List.foldl_cons, List.foldl_nil] at this ⊢
      rw [this]
      omega

theorem decimalDigits_digit (fuel : Nat) :
    ∀ n ch, ch ∈ decimalDigits fuel n → 48 ≤ ch ∧ ch ≤ 57 := by
  induction fuel with
  | zero => intro n ch h; simp [decimalDigits] at h
  | succ f ih =>
    intro n ch h
    simp only [decimalDigits] at h
    split_ifs at h with h10
    · simp only [List.mem_singleton] at h
      omega
    · rcases List.mem_append.mp h with h1 | h1
      · exact ih _ _ h1
      · simp only [List.mem_singleton] at h1
        omega

theorem to_string_value (n : Nat) : ofDecimal (to_string n) = n :=
  decimalDigits_value (n + 1) n (by omega)

theorem to_string_injective (i j : Nat) (h : to_string i = to_string j) : i = j := by
  rw [← to_string_value i, ← to_string_value j, h]

/-- The decimal text of a positive number is the list of its base-10 digits, most
significant first. -/
theorem decimalDigits_eq_digits (fuel : Nat) :
    ∀ n, n < fuel → n ≠ 0 →
      decimalDigits fuel n = ((Nat.digits 10 n).reverse).map (fun dgt => 48 + dgt) := by
  induction fuel with
  | zero => intro n h; omega
  | succ f ih =>
    intro n h h0
    simp only [decimalDigits]
    split_ifs with h10
    · rw [Nat.digits_of_lt 10 n h0 h10]
      rfl
    · rw [Nat.digits_def' (by norm_num) (by omega), List.reverse_cons, List.map_append,
        ih (n / 10) (by omega) (by omega)]
      rfl

/-- Two lists split at an element that occurs in neither front part have the same
front part and the same rest. -/
theorem split_at_first {α : Type} (ch : α) :
    ∀ (x x' y y' : List α), ch ∉ x → ch ∉ x' → x ++ ch :: y = x' ++ ch :: y' →
      x = x' ∧ y = y' := by
  intro x
  induction x with
  | nil =>
    intro x' y y' _ h2 h
    cases x' with
    | nil => simpa using h
    | cons b t =>
      simp only [List.nil_append, List.cons_append, List.cons.injEq] at h
      exact absurd (h.1 ▸ List.mem_cons_self _ _) h2
  | cons a s ih =>
    intro x' y y' h1 h2 h
    cases x' with
    | nil =>
      simp only [List.nil_append, List.cons_append, List.cons.injEq] at h
      exact absurd (h.1 ▸ List.mem_cons_self _ _) h1
    | cons b t =>
      simp only [List.cons_append, List.cons.injEq] at h
      obtain ⟨e1, e2⟩ := ih t y y' (fun hm => h1 (List.mem_cons_of_mem _ hm))
        (fun hm => h2 (List.mem_cons_of_mem _ hm)) h.2
      exact ⟨by rw [h.1, e1], e2⟩

theorem uniqueName_injective (i j : Nat) (a b : SubmeshData)
    (h : uniqueName i a = uniqueName j b) : i = j := by
  have hr := congrArg List.reverse h
  simp only [uniqueName, List.reverse_append, show strLit "_" = [95] from rfl,
    List.reverse_cons, List.reverse_nil, List.nil_append, List.append_assoc,
    List.singleton_append] at hr
  have hi : (95 : Nat) ∉ (to_string i).reverse := by
    intro hm
    have := decimalDigits_digit _ _ _ (List.mem_reverse.mp hm)
    omega
  have hj : (95 : Nat) ∉ (to_string j).reverse := by
    intro hm
    have := decimalDigits_digit _ _ _ (List.mem_reverse.mp hm)
    omega
  have := (split_at_first 95 _ _ _ _ hi hj hr).1
  exact to_string_injective i j (List.reverse_injective this)

/-- C13: the object line written for the submesh at position `i` is `o ` followed by
its identifier: the submesh name with every space replaced by an underscore,
then `_`, then `i` in decimal (the digits of `i`, most significant first, `0`
for zero).  Identifiers at two distinct positions differ, whatever the two
submesh names are. -/
theorem obj_names_unique (fmt : F32 → CppString) (V V' : Nat) (i j : Nat)
    (a b : SubmeshData) (hij : i ≠ j) :
    (submeshLines fmt i V a).head? = some (strLit "o " ++ uniqueName i a) ∧
    uniqueName i a =
      a.name.map (fun ch => if ch = 32 then 95 else ch) ++ strLit "_" ++ to_string i ∧
    (i ≠ 0 → to_string i = ((Nat.digits 10 i).reverse).map (fun dgt => 48 + dgt)) ∧
    to_string 0 = strLit "0" ∧
    uniqueName i a ≠ uniqueName j b ∧
    (submeshLines fmt i V a).head? ≠ (submeshLines fmt j V' b).head? := by
  have hne : uniqueName i a ≠ uniqueName j b := fun h => hij (uniqueName_injective i j a b h)
  refine ⟨rfl, rfl, fun h0 => decimalDigits_eq_digits (i + 1) i (by omega) h0, rfl, hne, ?_⟩
  intro h
  simp only [submeshLines, List.singleton_append, List.cons_append, List.head?_cons,
    Option.some.injEq] at h
  exact hne (List.append_cancel_left h)

/-- Witness of C13: two submeshes with the same name "Box 1" at positions 0 and 1
get the distinct identifiers `Box_1_0` and `Box_1_1`. -/
theorem obj_names_unique_witness :
    uniqueName 0 boxA = strLit "Box_1_0" ∧ uniqueName 1 boxB = strLit "Box_1_1" ∧
    boxA.name = boxB.name ∧ uniqueName 0 boxA ≠ uniqueName 1 boxB :=
  ⟨by decide, by decide, by decide,
   (obj_names_unique (fun _ => []) 0 0 0 1 boxA boxB (by decide)).2.2.2.2.1⟩

/-! ## Vertex and face records -/

theorem extractSubmesh_vertex (d : ByteBuf) (offset : Nat) (info : SubmeshInfo) (i : Nat)
    (hi : i < info.vertexCount) :
    (extractSubmesh d offset info).1.vertices[i]? =
      some (readPosition d (vertOffsetOf offset info i)) ∧
    (extractSubmesh d offset info).1.normals[i]? =
      some (readNormal d (vertOffsetOf offset info i)) ∧
    (extractSubmesh d offset info).1.uvs[i]? =
      some (readUV d (vertOffsetOf offset info i)) := by
  simp only [extractSubmesh, List.getElem?_map, List.getElem?_range hi, Option.map_some',
    and_self]

theorem extractSubmesh_face (d : ByteBuf) (offset : Nat) (info : SubmeshInfo) (j : Nat)
    (hj : j < info.faceCount) :
    (extractSubmesh d offset info).1.faces[j]? = some
      { i1 := readU16 d (faceBlockStart offset info + 6 * j),
        i2 := readU16 d (faceBlockStart offset info + 6 * j + 4),
        i3 := readU16 d (faceBlockStart offset info + 6 * j + 2) } := by
  simp only [extractSubmesh, readFaces_fst, List.getElem?_map, List.getElem?_range hj,
    Option.map_some']

theorem extractSubmesh_snd (d : ByteBuf) (offset : Nat) (info : SubmeshInfo) :
    (extractSubmesh d offset info).2 = faceBlockStart offset info + 6 * info.faceCount := by
  simp only [extractSubmesh, readFaces_snd]

theorem submeshStart_succ (d : ByteBuf) (descs : List SubmeshInfo) :
    ∀ (offset k : Nat) (info : SubmeshInfo), descs[k]? = some info →
      submeshStart d offset descs (k + 1) =
        (extractSubmesh d (submeshStart d offset descs k) info).2 := by
  induction descs with
  | nil => intro offset k info h; simp at h
  | cons a rest ih =>
    intro offset k info h
    cases k with
    | zero =>
      simp only [List.getElem?_cons_zero, Option.some.injEq] at h
      subst h
      simp only [submeshStart, submeshStart_zero]
    | succ k =>
      simp only [List.getElem?_cons_succ] at h
      simp only [submeshStart]
      exact ih _ k info h

/-- The vertex record layout holds for every index whose product with the stride
fits in 32 bits: the `i`-th position, normal and UV pair of the `k`-th submesh
are read at bytes 0, 4, 8, at bytes 12, 16, 20 and at bytes 24, 26 of the
record at `S + i * stride`. -/
theorem vertex_record_layout_of_small (c : SMBConverter) (k : Nat) (info : SubmeshInfo)
    (hk : c.submeshes[k]? = some info) (i : Nat) (hi : i < info.vertexCount)
    (hsmall : i * info.stride < 4294967296) :
    ∃ sd : SubmeshData, (extractMeshData c)[k]? = some sd ∧
      sd.vertices[i]? = some
        { x := F32.neg (readF32 c.fileData (vertexBlockStart c k + i * info.stride)),
          y := readF32 c.fileData (vertexBlockStart c k + i * info.stride + 4),
          z := readF32 c.fileData (vertexBlockStart c k + i * info.stride + 8) } ∧
      sd.normals[i]? = some
        { x := F32.neg (readF32 c.fileData (vertexBlockStart c k + i * info.stride + 12)),
          y := readF32 c.fileData (vertexBlockStart c k + i * info.stride + 16),
          z := readF32 c.fileData (vertexBlockStart c k + i * info.stride + 20) } ∧
      sd.uvs[i]? = some
        { u := readHalfFloat c.fileData (vertexBlockStart c k + i * info.stride + 24),
          v := readHalfFloat c.fileData (vertexBlockStart c k + i * info.stride + 26) } := by
  have hg := extractSubmeshes_getElem c.fileData c.submeshes
    (align16 (vertexDataOffset c.fileData)) k
  rw [hk] at hg
  have hv := extractSubmesh_vertex c.fileData (vertexBlockStart c k) info i hi
  have ho : vertOffsetOf (vertexBlockStart c k) info i = vertexBlockStart c k + i * info.stride := by
    simp only [vertOffsetOf, u32, Nat.mod_eq_of_lt hsmall]
  rw [ho] at hv
  exact ⟨_, hg, hv.1, hv.2.1, hv.2.2⟩

/-- The face block follows the vertex block, and the next vertex block the face
block, whenever `vertexCount * stride` fits in 32 bits. -/
theorem face_block_of_small (c : SMBConverter) (k : Nat) (info : SubmeshInfo)
    (hk : c.submeshes[k]? = some info)
    (hsmall : info.vertexCount * info.stride < 4294967296) :
    (∃ sd : SubmeshData, (extractMeshData c)[k]? = some sd ∧
      ∀ j, j < info.faceCount → sd.faces[j]? = some
        { i1 := readU16 c.fileData
            (vertexBlockStart c k + info.vertexCount * info.stride + 6 * j),
          i2 := readU16 c.fileData
            (vertexBlockStart c k + info.vertexCount * info.stride + 6 * j + 4),
          i3 := readU16 c.fileData
            (vertexBlockStart c k + info.vertexCount * info.stride + 6 * j + 2) }) ∧
    vertexBlockStart c (k + 1) =
      vertexBlockStart c k + info.vertexCount * info.stride + info.faceCount * 6 := by
  have hg := extractSubmeshes_getElem c.fileData c.submeshes
    (align16 (vertexDataOffset c.fileData)) k
  rw [hk] at hg
  have hf : faceBlockStart (vertexBlockStart c k) info =
      vertexBlockStart c k + info.vertexCount * info.stride := by
    simp only [faceBlockStart, u32, Nat.mod_eq_of_lt hsmall]
  refine ⟨⟨_, hg, ?_⟩, ?_⟩
  · intro j hj
    have := extractSubmesh_face c.fileData (vertexBlockStart c k) info j hj
    rw [hf] at this
    exact this
  · have := submeshStart_succ c.fileData c.submeshes (align16 (vertexDataOffset c.fileData))
      k info hk
    simp only [vertexBlockStart]
    rw [this, extractSubmesh_snd]
    simp only [vertexBlockStart] at hf
    rw [hf]
    omega

theorem hugeVertexBuf_header :
    (parseHeader (SMBConverter.fresh hugeVertexBuf)).1 = true ∧
    (parseHeader (SMBConverter.fresh hugeVertexBuf)).2.submeshes = [hugeInfo] ∧
    align16 (vertexDataOffset hugeVertexBuf) = 464 := by
  decide

theorem extractMeshData_single (d : ByteBuf) (materials : List CppString) (info : SubmeshInfo) :
    extractMeshData { fileData := d, materials := materials, submeshes := [info] } =
      [(extractSubmesh d (align16 (vertexDataOffset d)) info).1] := by
  simp [extractMeshData, extractSubmeshes]

/-- C18 (evaluation at the failing input): `parseHeader` decodes from the
4294967870-byte file `hugeVertexBuf` one descriptor with 71582790 vertices of
stride 60, whose vertex block starts at 464 and lies inside the file.  The
record of vertex `i = 71582789` starts at `464 + i * 60 = 4294967804` and holds
the position x = 2.0, but `extractMeshData` reads that vertex at offset
`464 + (i * 60 mod 2^32) = 508`, inside record 0, and emits the position whose
x pattern is `0x80000007` instead of `0xC0000000` (-2.0). -/
theorem vertex_record_wraps_at_hugeVertexBuf :
    (parseHeader (SMBConverter.fresh hugeVertexBuf)).2.submeshes = [hugeInfo] ∧
    align16 (vertexDataOffset hugeVertexBuf) = 464 ∧
    464 + hugeInfo.vertexCount * hugeInfo.stride + 6 * hugeInfo.faceCount ≤ hugeVertexBuf.size ∧
    464 + 71582789 * hugeInfo.stride = 4294967804 ∧
    vertOffsetOf 464 hugeInfo 71582789 = 508 ∧
    (∃ sd : SubmeshData,
      (extractMeshData { fileData := hugeVertexBuf, materials := [], submeshes := [hugeInfo] })[0]?
        = some sd ∧
      sd.vertices[71582789]? = some { x := ⟨0x80000007⟩, y := ⟨0⟩, z := ⟨0⟩ }) ∧
    readPosition hugeVertexBuf 4294967804 = { x := ⟨0xC0000000⟩, y := ⟨0⟩, z := ⟨0⟩ } := by
  refine ⟨hugeVertexBuf_header.2.1, hugeVertexBuf_header.2.2, by decide, by decide, by decide,
    ?_, by decide⟩
  rw [extractMeshData_single, hugeVertexBuf_header.2.2]
  refine ⟨(extractSubmesh hugeVertexBuf 464 hugeInfo).1, rfl, ?_⟩
  rw [(extractSubmesh_vertex hugeVertexBuf 464 hugeInfo 71582789 (by decide)).1]
  decide

/-- C19 (evaluation at the failing input): for the descriptor of `hugeVertexBuf`
(71582790 vertices of stride 60 from offset 464, 1 face) the face block starts
at `464 + 71582790 * 60 = 4294967864`, where the stored indices are (0, 1, 2),
and the next vertex block would start at 4294967870; `extractMeshData` reads
the face record at `464 + (71582790 * 60 mod 2^32) = 568`, emits the face
(0, 0, 0) and leaves the cursor at 574. -/
theorem face_block_wraps_at_hugeVertexBuf :
    (parseHeader (SMBConverter.fresh hugeVertexBuf)).2.submeshes = [hugeInfo] ∧
    align16 (vertexDataOffset hugeVertexBuf) = 464 ∧
    464 + hugeInfo.vertexCount * hugeInfo.stride = 4294967864 ∧
    464 + hugeInfo.vertexCount * hugeInfo.stride + hugeInfo.faceCount * 6 = 4294967870 ∧
    hugeVertexBuf.size = 4294967870 ∧
    faceBlockStart 464 hugeInfo = 568 ∧
    (extractSubmesh hugeVertexBuf 464 hugeInfo).1.faces = [{ i1 := 0, i2 := 0, i3 := 0 }] ∧
    (readU16 hugeVertexBuf 4294967864, readU16 hugeVertexBuf 4294967866,
      readU16 hugeVertexBuf 4294967868) = (0, 1, 2) ∧
    vertexBlockStart { fileData := hugeVertexBuf, materials := [], submeshes := [hugeInfo] } 1
      = 574 := by
  refine ⟨hugeVertexBuf_header.2.1, hugeVertexBuf_header.2.2, by decide, by decide, by decide,
    by decide, by decide, by decide, ?_⟩
  simp only [vertexBlockStart, submeshStart, hugeVertexBuf_header.2.2, extractSubmesh_snd]
  decide

/-- C20 (evaluation at the failing input): `hugeVertexBuf` and `hugeVertexBuf2` have
the same length and differ only in byte 568, which is byte 44 of vertex record
1 of the descriptor decoded from either file (stride 60, records from 464),
yet `extractMeshData` returns different faces for the two buffers: (0, 0, 0)
and (5, 0, 0). -/
theorem padding_read_at_hugeVertexBuf :
    hugeVertexBuf.size = hugeVertexBuf2.size ∧
    (∀ a, a ≠ 568 → hugeVertexBuf.byte a = hugeVertexBuf2.byte a) ∧
    (parseHeader (SMBConverter.fresh hugeVertexBuf)).2.submeshes = [hugeInfo] ∧
    (parseHeader (SMBConverter.fresh hugeVertexBuf2)).2.submeshes = [hugeInfo] ∧
    align16 (vertexDataOffset hugeVertexBuf) = 464 ∧
    align16 (vertexDataOffset hugeVertexBuf2) = 464 ∧
    (1 < hugeInfo.vertexCount ∧ 568 = 464 + 1 * hugeInfo.stride + 44 ∧ 28 ≤ 44 ∧
      44 < hugeInfo.stride) ∧
    isPadding 568 464 [hugeInfo] ∧
    (extractMeshData { fileData := hugeVertexBuf, materials := [], submeshes := [hugeInfo] }).map
      (fun sd => sd.faces) = [[{ i1 := 0, i2 := 0, i3 := 0 }]] ∧
    (extractMeshData { fileData := hugeVertexBuf2, materials := [], submeshes := [hugeInfo] }).map
      (fun sd => sd.faces) = [[{ i1 := 5, i2 := 0, i3 := 0 }]] := by
  refine ⟨rfl, ?_, hugeVertexBuf_header.2.1, by decide, hugeVertexBuf_header.2.2, by decide,
    by decide, ?_, ?_, ?_⟩
  · intro a ha
    simp [hugeVertexBuf2, ha]
  · left
    exact ⟨1, by decide, by decide, by decide⟩
  · rw [extractMeshData_single, hugeVertexBuf_header.2.2]
    decide
  · rw [extractMeshData_single, show align16 (vertexDataOffset hugeVertexBuf2) = 464 by decide]
    decide

/-! ## Padding bytes -/

theorem readU16_congr (d1 d2 : ByteBuf) (off : Nat)
    (h : ∀ a, off ≤ a → a < off + 2 → d1.get a = d2.get a) :
    readU16 d1 off = readU16 d2 off := by
  simp only [readU16, h off (by omega) (by omega), h (off + 1) (by omega) (by omega)]

theorem readU32_congr (d1 d2 : ByteBuf) (off : Nat)
    (h : ∀ a, off ≤ a → a < off + 4 → d1.get a = d2.get a) :
    readU32 d1 off = readU32 d2 off := by
  simp only [readU32, h off (by omega) (by omega), h (off + 1) (by omega) (by omega),
    h (off + 2) (by omega) (by omega), h (off + 3) (by omega) (by omega)]

/-- The three reads of a vertex record use its first 28 bytes only. -/
theorem vertex_reads_congr (d1 d2 : ByteBuf) (v : Nat)
    (h : ∀ a, v ≤ a → a < v + 28 → d1.get a = d2.get a) :
    readPosition d1 v = readPosition d2 v ∧ readNormal d1 v = readNormal d2 v ∧
    readUV d1 v = readUV d2 v := by
  have e0 := readU32_congr d1 d2 v (fun a h1 h2 => h a (by omega) (by omega))
  have e4 := readU32_congr d1 d2 (v + 4) (fun a h1 h2 => h a (by omega) (by omega))
  have e8 := readU32_congr d1 d2 (v + 8) (fun a h1 h2 => h a (by omega) (by omega))
  have e12 := readU32_congr d1 d2 (v + 12) (fun a h1 h2 => h a (by omega) (by omega))
  have e16 := readU32_congr d1 d2 (v + 16) (fun a h1 h2 => h a (by omega) (by omega))
  have e20 := readU32_congr d1 d2 (v + 20) (fun a h1 h2 => h a (by omega) (by omega))
  have e24 := readU16_congr d1 d2 (v + 24) (fun a h1 h2 => h a (by omega) (by omega))
  have e26 := readU16_congr d1 d2 (v + 26) (fun a h1 h2 => h a (by omega) (by omega))
  simp only [readPosition, readNormal, readUV, readF32, readHalfFloat, e0, e4, e8, e12, e16,
    e20, e24, e26, and_self]

theorem isPadding_ge (a : Nat) (descs : List SubmeshInfo) :
    ∀ offset, isPadding a offset descs → offset + 28 ≤ a := by
  induction descs with
  | nil => intro offset h; exact absurd h (by simp [isPadding])
  | cons info rest ih =>
    intro offset h
    simp only [isPadding] at h
    rcases h with ⟨i, -, h1, -⟩ | h
    · omega
    · have := ih _ h
      omega

/-- A byte among the first 28 of a vertex record is not a padding byte. -/
theorem data_not_padding (a offset i : Nat) (info : SubmeshInfo) (rest : List SubmeshInfo)
    (hi : i < info.vertexCount) (h1 : offset + i * info.stride ≤ a)
    (h2 : a < offset + i * info.stride + 28) :
    ¬ isPadding a offset (info :: rest) := by
  intro h
  simp only [isPadding] at h
  rcases h with ⟨j, -, p1, p2⟩ | h
  · rcases Nat.lt_trichotomy j i with hlt | heq | hgt
    · have : (j + 1) * info.stride ≤ i * info.stride := Nat.mul_le_mul_right _ hlt
      rw [Nat.add_mul, Nat.one_mul] at this
      omega
    · subst heq; omega
    · have : (i + 1) * info.stride ≤ j * info.stride := Nat.mul_le_mul_right _ hgt
      rw [Nat.add_mul, Nat.one_mul] at this
      omega
  · have := isPadding_ge a rest _ h
    have : i * info.stride ≤ info.vertexCount * info.stride :=
      Nat.mul_le_mul_right _ (Nat.le_of_lt hi)
    omega

/-- A byte of a face record is not a padding byte. -/
theorem face_not_padding (a offset j : Nat) (info : SubmeshInfo) (rest : List SubmeshInfo)
    (hj : j < info.faceCount) (h1 : offset + info.vertexCount * info.stride + 6 * j ≤ a)
    (h2 : a < offset + info.vertexCount * info.stride + 6 * j + 6) :
    ¬ isPadding a offset (info :: rest) := by
  intro h
  simp only [isPadding] at h
  rcases h with ⟨i, hi, p1, p2⟩ | h
  · have : (i + 1) * info.stride ≤ info.vertexCount * info.stride := Nat.mul_le_mul_right _ hi
    rw [Nat.add_mul, Nat.one_mul] at this
    omega
  · have := isPadding_ge a rest _ h
    omega

theorem extractSubmesh_congr (d1 d2 : ByteBuf) (offset : Nat) (info : SubmeshInfo)
    (rest : List SubmeshInfo) (hsmall : info.vertexCount * info.stride < 4294967296)
    (hdiff : ∀ a, d1.get a ≠ d2.get a → a < offset ∨ isPadding a offset (info :: rest)) :
    extractSubmesh d1 offset info = extractSubmesh d2 offset info ∧
    (extractSubmesh d1 offset info).2 =
      offset + info.vertexCount * info.stride + info.faceCount * 6 := by
  have hag : ∀ a, offset ≤ a → ¬ isPadding a offset (info :: rest) → d1.get a = d2.get a := by
    intro a hge hn
    by_contra hne
    rcases hdiff a hne with h | h
    · omega
    · exact hn h
  have hF : faceBlockStart offset info = offset + info.vertexCount * info.stride := by
    simp only [faceBlockStart, u32, Nat.mod_eq_of_lt hsmall]
  have hV : ∀ i, i < info.vertexCount → vertOffsetOf offset info i = offset + i * info.stride := by
    intro i hi
    have : i * info.stride ≤ info.vertexCount * info.stride :=
      Nat.mul_le_mul_right _ (Nat.le_of_lt hi)
    simp only [vertOffsetOf, u32, Nat.mod_eq_of_lt (Nat.lt_of_le_of_lt this hsmall)]
  have hvert : ∀ i, i ∈ List.range info.vertexCount →
      readPosition d1 (vertOffsetOf offset info i) = readPosition d2 (vertOffsetOf offset info i) ∧
      readNormal d1 (vertOffsetOf offset info i) = readNormal d2 (vertOffsetOf offset info i) ∧
      readUV d1 (vertOffsetOf offset info i) = readUV d2 (vertOffsetOf offset info i) := by
    intro i hi
    have hi' := List.mem_range.mp hi
    rw [hV i hi']
    exact vertex_reads_congr d1 d2 _ (fun a h1 h2 =>
      hag a (by omega) (data_not_padding a offset i info rest hi' h1 h2))
  have hface : (readFaces d1 info.faceCount (faceBlockStart offset info)).1 =
      (readFaces d2 info.faceCount (faceBlockStart offset info)).1 := by
    rw [readFaces_fst, readFaces_fst, hF]
    apply List.map_congr_left
    intro j hj
    have hj' := List.mem_range.mp hj
    have e0 := readU16_congr d1 d2 (offset + info.vertexCount * info.stride + 6 * j)
      (fun a h1 h2 => hag a (by omega)
        (face_not_padding a offset j info rest hj' (by omega) (by omega)))
    have e2 := readU16_congr d1 d2 (offset + info.vertexCount * info.stride + 6 * j + 2)
      (fun a h1 h2 => hag a (by omega)
        (face_not_padding a offset j info rest hj' (by omega) (by omega)))
    have e4 := readU16_congr d1 d2 (offset + info.vertexCount * info.stride + 6 * j + 4)
      (fun a h1 h2 => hag a (by omega)
        (face_not_padding a offset j info rest hj' (by omega) (by omega)))
    rw [e0, e2, e4]
  constructor
  · simp only [extractSubmesh, readFaces_snd, hface, Prod.mk.injEq, SubmeshData.mk.injEq,
      true_and, and_true]
    exact ⟨List.map_congr_left (fun i hi => (hvert i hi).1),
      List.map_congr_left (fun i hi => (hvert i hi).2.1),
      List.map_congr_left (fun i hi => (hvert i hi).2.2)⟩
  · rw [extractSubmesh_snd, hF]
    omega

theorem extractSubmeshes_congr (d1 d2 : ByteBuf) (descs : List SubmeshInfo) :
    ∀ offset, (∀ info, info ∈ descs → info.vertexCount * info.stride < 4294967296) →
      (∀ a, d1.get a ≠ d2.get a → a < offset ∨ isPadding a offset descs) →
      extractSubmeshes d1 offset descs = extractSubmeshes d2 offset descs := by
  induction descs with
  | nil => intro offset _ _; rfl
  | cons info rest ih =>
    intro offset hsmall hdiff
    obtain ⟨e1, e2⟩ := extractSubmesh_congr d1 d2 offset info rest
      (hsmall info (List.mem_cons_self _ _)) hdiff
    simp only [extractSubmeshes]
    rw [← e1, e2]
    congr 1
    apply ih _ (fun i hi => hsmall i (List.mem_cons_of_mem _ hi))
    intro a hne
    rcases hdiff a hne with hlt | hp
    · left; omega
    · simp only [isPadding] at hp
      rcases hp with ⟨i, hi, p1, p2⟩ | hp
      · left
        have : (i + 1) * info.stride ≤ info.vertexCount * info.stride :=
          Nat.mul_le_mul_right _ hi
        rw [Nat.add_mul, Nat.one_mul] at this
        omega
      · right; exact hp

theorem scanName_ge (d : ByteBuf) : ∀ fuel pos, pos ≤ scanName d fuel pos := by
  intro fuel
  induction fuel with
  | zero => intro pos; simp [scanName]
  | succ f ih =>
    intro pos
    simp only [scanName]
    split_ifs
    · exact Nat.le_trans (Nat.le_succ _) (ih (pos + 1))
    · exact Nat.le_refl _

theorem scanName_congr (d1 d2 : ByteBuf) (hsize : d1.size = d2.size) :
    ∀ fuel pos, (∀ a, a ≤ scanName d1 fuel pos → d1.get a = d2.get a) →
      scanName d2 fuel pos = scanName d1 fuel pos := by
  intro fuel
  induction fuel with
  | zero => intro pos _; rfl
  | succ f ih =>
    intro pos h
    have hpos := h pos (scanName_ge d1 (f + 1) pos)
    simp only [scanName] at h ⊢
    rw [← hsize, ← hpos]
    split_ifs with hc
    · rw [if_pos hc] at h
      exact ih (pos + 1) h
    · rfl

theorem skipMaterials_ge (d : ByteBuf) : ∀ n offset, offset ≤ skipMaterials d n offset := by
  intro n
  induction n with
  | zero => intro offset; simp [skipMaterials]
  | succ n ih =>
    intro offset
    simp only [skipMaterials]
    exact Nat.le_trans (Nat.le_add_right _ _) (ih _)

theorem skipMaterials_congr (d1 d2 : ByteBuf) (hsize : d1.size = d2.size) :
    ∀ n offset, (∀ a, a < skipMaterials d1 n offset → d1.get a = d2.get a) →
      skipMaterials d2 n offset = skipMaterials d1 n offset := by
  intro n
  induction n with
  | zero => intro offset _; rfl
  | succ n ih =>
    intro offset h
    simp only [skipMaterials] at h ⊢
    have hge := skipMaterials_ge d1 n
      (offset + (scanName d1 (d1.size - offset) offset - offset + 1 + 3) / 4 * 4)
    have hsg := scanName_ge d1 (d1.size - offset) offset
    have hs : scanName d2 (d2.size - offset) offset = scanName d1 (d1.size - offset) offset := by
      rw [← hsize]
      apply scanName_congr d1 d2 hsize
      intro a ha
      apply h
      omega
    rw [hs]
    exact ih _ h

/-- The layout re-walk reads only bytes below the offset it ends at. -/
theorem vertexDataOffset_congr (d1 d2 : ByteBuf) (hsize : d1.size = d2.size)
    (h : ∀ a, a < vertexDataOffset d1 → d1.get a = d2.get a) :
    vertexDataOffset d2 = vertexDataOffset d1 := by
  have hge := skipMaterials_ge d1 (readU32 d1 52) 64
  have hlow : 64 ≤ vertexDataOffset d1 := by
    simp only [vertexDataOffset, Nat.zero_add, Nat.reduceAdd]
    split_ifs <;> omega
  have hsk : skipMaterials d1 (readU32 d1 52) 64 ≤ vertexDataOffset d1 := by
    simp only [vertexDataOffset, Nat.zero_add, Nat.reduceAdd]
    split_ifs <;> omega
  have r40 := readU32_congr d1 d2 40 (fun a h1 h2 => h a (by omega))
  have r44 := readU32_congr d1 d2 44 (fun a h1 h2 => h a (by omega))
  have r48 := readU32_congr d1 d2 48 (fun a h1 h2 => h a (by omega))
  have r52 := readU32_congr d1 d2 52 (fun a h1 h2 => h a (by omega))
  have hm := skipMaterials_congr d1 d2 hsize (readU32 d1 52) 64 (fun a ha => h a (by omega))
  simp only [vertexDataOffset, Nat.zero_add, Nat.reduceAdd, ← r40, ← r44, ← r48, ← r52, hm]

theorem le_align16 (p : Nat) : p ≤ align16 p := by
  unfold align16
  split_ifs <;> omega

/-- Stride padding is not read as long as no `vertexCount * stride` overflows: two
buffers of equal length that differ only in padding bytes of vertex records
(laid out from the vertex-data start of the first buffer) give the same
geometry. -/
theorem padding_not_read_of_small (d1 d2 : ByteBuf) (materials : List CppString)
    (descs : List SubmeshInfo) (hsize : d1.size = d2.size)
    (hsmall : ∀ info, info ∈ descs → info.vertexCount * info.stride < 4294967296)
    (hdiff : ∀ a, d1.get a ≠ d2.get a → isPadding a (align16 (vertexDataOffset d1)) descs) :
    extractMeshData { fileData := d1, materials := materials, submeshes := descs } =
      extractMeshData { fileData := d2, materials := materials, submeshes := descs } := by
  have hv : vertexDataOffset d2 = vertexDataOffset d1 := by
    apply vertexDataOffset_congr d1 d2 hsize
    intro a ha
    by_contra hne
    have := isPadding_ge a descs _ (hdiff a hne)
    have := le_align16 (vertexDataOffset d1)
    omega
  simp only [extractMeshData, hv]
  exact extractSubmeshes_congr d1 d2 descs _ hsmall (fun a hne => Or.inr (hdiff a hne))

end SMB
